import Mathlib

/-!
A shallow embedding of the identifier/counter derivation engine of the
DataLoggerWeb repository (src/main.py: class DataLogger and its Flask
routes), together with proofs about it.

Strings are modelled as lists of characters (`Str`), spreadsheet rows as a
structure holding the cells the derivation logic reads and writes, and the
stateful parts (the per-user counter file, the conflict-retry save loop)
as explicit state passing.  Python integers are `Nat` where the source can
only produce non-negative values, `Int` where a sign check occurs.
-/

abbrev Str := List Char

/-- ASCII digit test, mirroring Python str.isdigit on the ASCII inputs the
derivation logic handles. -/
def isDigitC (c : Char) : Bool := 48 ≤ c.toNat && c.toNat ≤ 57

/-- ASCII letter test, mirroring Python str.isalpha on ASCII inputs. -/
def isAlphaC (c : Char) : Bool :=
  (65 ≤ c.toNat && c.toNat ≤ 90) || (97 ≤ c.toNat && c.toNat ≤ 122)

/-- ASCII whitespace test, mirroring the default Python str.strip set. -/
def isWhiteC (c : Char) : Bool :=
  c = ' ' || c = '\t' || c = '\n' || c = '\r'

/-- Value of an ASCII digit character. -/
def dval (c : Char) : Nat := c.toNat - 48

/-- The decimal digit characters, as Python str renders 0..9. -/
def digitCh : Nat → Char
  | 0 => '0' | 1 => '1' | 2 => '2' | 3 => '3' | 4 => '4'
  | 5 => '5' | 6 => '6' | 7 => '7' | 8 => '8' | _ => '9'

/-- Decimal digits of n, most significant first, with explicit fuel;
empty for 0 (only reached through `natToStr`, which handles 0 itself). -/
def digitsAux : Nat → Nat → Str
  | 0, _ => []
  | fuel + 1, n => if n = 0 then [] else digitsAux fuel (n / 10) ++ [digitCh (n % 10)]

/-- Python str applied to a non-negative integer. -/
def natToStr (n : Nat) : Str := if n = 0 then ['0'] else digitsAux n n

/-- Numeric value of an all-digit string (Python int on such a string). -/
def strVal (s : Str) : Nat := s.foldl (fun a c => a * 10 + dval c) 0

/-- Python str.zfill: left-pad with zeros to the given width. -/
def zfill (w : Nat) (s : Str) : Str := List.replicate (w - s.length) '0' ++ s

/-- Python int applied to a decimal-digit string; `none` models the
ValueError raised on any other input. -/
def pyInt (s : Str) : Option Nat :=
  if s ≠ [] && s.all isDigitC then some (strVal s) else none

/-- Python str.strip with the default (whitespace) character set. -/
def pyStrip (s : Str) : Str :=
  ((s.dropWhile isWhiteC).reverse.dropWhile isWhiteC).reverse

lemma dval_digitCh (d : Nat) (h : d < 10) : dval (digitCh d) = d := by
  interval_cases d <;> rfl

lemma isDigitC_digitCh (d : Nat) (h : d < 10) : isDigitC (digitCh d) = true := by
  interval_cases d <;> rfl

lemma strVal_append_digit (s : Str) (c : Char) :
    strVal (s ++ [c]) = strVal s * 10 + dval c := by
  simp [strVal, List.foldl_append]

lemma digitsAux_sound : ∀ fuel n, n ≤ fuel → strVal (digitsAux fuel n) = n := by
  intro fuel
  induction fuel with
  | zero =>
    intro n hn
    interval_cases n
    rfl
  | succ f ih =>
    intro n hn
    by_cases h0 : n = 0
    · subst h0; simp [digitsAux, strVal]
    · have hdiv : n / 10 ≤ f := by
        have : n / 10 < n := Nat.div_lt_self (Nat.pos_of_ne_zero h0) (by norm_num)
        omega
      simp only [digitsAux, if_neg h0]
      rw [strVal_append_digit, ih _ hdiv, dval_digitCh _ (Nat.mod_lt _ (by norm_num))]
      omega

lemma digitsAux_digits : ∀ fuel n c, c ∈ digitsAux fuel n → isDigitC c = true := by
  intro fuel
  induction fuel with
  | zero => intro n c hc; simp [digitsAux] at hc
  | succ f ih =>
    intro n c hc
    by_cases h0 : n = 0
    · subst h0; simp [digitsAux] at hc
    · simp only [digitsAux, if_neg h0, List.mem_append, List.mem_singleton] at hc
      rcases hc with hc | hc
      · exact ih _ _ hc
      · subst hc; exact isDigitC_digitCh _ (Nat.mod_lt _ (by norm_num))

lemma digitsAux_length :
    ∀ fuel k n, n ≤ fuel → n < 10 ^ k → (digitsAux fuel n).length ≤ k := by
  intro fuel
  induction fuel with
  | zero =>
    intro k n hn _
    interval_cases n
    simp [digitsAux]
  | succ f ih =>
    intro k n hn hk
    by_cases h0 : n = 0
    · subst h0; simp [digitsAux]
    · have hkpos : 1 ≤ k := by
        by_contra h
        interval_cases k
        simp at hk
        omega
      obtain ⟨k', rfl⟩ : ∃ k', k = k' + 1 := ⟨k - 1, by omega⟩
      have hdivle : n / 10 ≤ f := by
        have : n / 10 < n := Nat.div_lt_self (Nat.pos_of_ne_zero h0) (by norm_num)
        omega
      have hdivlt : n / 10 < 10 ^ k' := by
        rw [Nat.div_lt_iff_lt_mul (by norm_num)]
        calc n < 10 ^ (k' + 1) := hk
        _ = 10 ^ k' * 10 := by ring
      simp only [digitsAux, if_neg h0, List.length_append, List.length_singleton]
      have := ih k' (n / 10) hdivle hdivlt
      omega

lemma strVal_natToStr (n : Nat) : strVal (natToStr n) = n := by
  by_cases h0 : n = 0
  · subst h0; rfl
  · simp only [natToStr, if_neg h0]
    exact digitsAux_sound n n le_rfl

lemma natToStr_digits (n : Nat) : ∀ c ∈ natToStr n, isDigitC c = true := by
  intro c hc
  by_cases h0 : n = 0
  · subst h0; simp [natToStr] at hc; subst hc; rfl
  · simp only [natToStr, if_neg h0] at hc
    exact digitsAux_digits _ _ _ hc

lemma natToStr_ne_nil (n : Nat) : natToStr n ≠ [] := by
  by_cases h0 : n = 0
  · subst h0; simp [natToStr]
  · simp only [natToStr, if_neg h0]
    cases fuel : n with
    | zero => exact absurd fuel h0
    | succ f =>
      simp [digitsAux, h0]

lemma natToStr_length_le (n k : Nat) (hk : 1 ≤ k) (h : n < 10 ^ k) :
    (natToStr n).length ≤ k := by
  by_cases h0 : n = 0
  · subst h0; simpa [natToStr] using hk
  · simp only [natToStr, if_neg h0]
    exact digitsAux_length n k n le_rfl h

lemma foldl_zeros (k : Nat) :
    List.foldl (fun a c => a * 10 + dval c) 0 (List.replicate k '0') = 0 := by
  induction k with
  | zero => rfl
  | succ m ih => simpa [List.replicate_succ, dval] using ih

lemma strVal_zfill (w : Nat) (s : Str) : strVal (zfill w s) = strVal s := by
  simp [zfill, strVal, List.foldl_append, foldl_zeros]

lemma zfill_length (w : Nat) (s : Str) (h : s.length ≤ w) :
    (zfill w s).length = w := by
  simp [zfill]
  omega

lemma zfill_digits (w : Nat) (s : Str) (hs : ∀ c ∈ s, isDigitC c = true) :
    ∀ c ∈ zfill w s, isDigitC c = true := by
  intro c hc
  simp only [zfill, List.mem_append, List.mem_replicate] at hc
  rcases hc with hc | hc
  · rw [hc.2]; rfl
  · exact hs c hc

lemma pyInt_natToStr (n : Nat) : pyInt (natToStr n) = some n := by
  simp only [pyInt]
  rw [if_pos, strVal_natToStr]
  simp only [Bool.and_eq_true, decide_eq_true_eq, List.all_eq_true]
  exact ⟨by simpa using natToStr_ne_nil n, natToStr_digits n⟩

lemma pyInt_zfill_natToStr (w n : Nat) : pyInt (zfill w (natToStr n)) = some n := by
  simp only [pyInt]
  rw [if_pos, strVal_zfill, strVal_natToStr]
  simp only [Bool.and_eq_true, decide_eq_true_eq, List.all_eq_true]
  constructor
  · intro h
    have := natToStr_ne_nil n
    simp only [zfill] at h
    rcases List.append_eq_nil.mp h with ⟨_, h2⟩
    exact this h2
  · exact zfill_digits _ _ (natToStr_digits n)

/-! ## The chip/well assignment engine

`process_form_data` (src/main.py lines 417-429) allocates `rxn_number`
(chip, well) pairs: starting from `chip, used`, each reaction first rolls
to the next chip when the current one has all 8 wells used (re-reading
that chip's recorded usage from the date's `chips_map`), then takes the
next well.  `m` below is `chips_map.get(str(chip), 0)`. -/

def allocWells (m : Nat → Nat) : Nat → Nat → Nat → List (Nat × Nat)
  | 0, _, _ => []
  | n + 1, chip, used =>
    if used = 8 then
      (chip + 1, m (chip + 1) + 1) :: allocWells m n (chip + 1) (m (chip + 1) + 1)
    else
      (chip, used + 1) :: allocWells m n chip (used + 1)

/-- The successor relation the specification demands between consecutive
assignments: continue on the same chip until well 8, then roll to the
next chip at well 1. -/
def allocStep (p q : Nat × Nat) : Prop :=
  if p.2 = 8 then q = (p.1 + 1, 1) else q = (p.1, p.2 + 1)

lemma allocWells_length (m : Nat → Nat) :
    ∀ N c u, (allocWells m N c u).length = N := by
  intro N
  induction N with
  | zero => intro c u; rfl
  | succ n ih =>
    intro c u
    by_cases h : u = 8 <;> simp [allocWells, h, ih]

lemma allocWells_wells (m : Nat → Nat) :
    ∀ N c u, (∀ k, c < k → m k = 0) → u ≤ 8 →
      ∀ p ∈ allocWells m N c u, 1 ≤ p.2 ∧ p.2 ≤ 8 := by
  intro N
  induction N with
  | zero => intro c u _ _ p hp; simp [allocWells] at hp
  | succ n ih =>
    intro c u hm hu p hp
    by_cases h : u = 8
    · rw [allocWells, if_pos h, hm (c + 1) (Nat.lt_succ_self c)] at hp
      rcases List.mem_cons.mp hp with hp | hp
      · subst hp; exact ⟨le_rfl, by norm_num⟩
      · have hm' : ∀ k, c + 1 < k → m k = 0 := fun k hk => hm k (by omega)
        exact ih (c + 1) (0 + 1) hm' (by norm_num) p hp
    · rw [allocWells, if_neg h] at hp
      rcases List.mem_cons.mp hp with hp | hp
      · subst hp; exact ⟨by omega, by omega⟩
      · exact ih c (u + 1) hm (by omega) p hp

lemma allocWells_head (m : Nat → Nat) (N c u : Nat)
    (hm : ∀ k, c < k → m k = 0) (hN : 1 ≤ N) :
    (allocWells m N c u).head? =
      some (if u = 8 then (c + 1, 1) else (c, u + 1)) := by
  obtain ⟨n, rfl⟩ : ∃ n, N = n + 1 := ⟨N - 1, by omega⟩
  by_cases h : u = 8
  · rw [allocWells, if_pos h, if_pos h, hm (c + 1) (Nat.lt_succ_self c)]
    rfl
  · rw [allocWells, if_neg h, if_neg h]
    rfl

lemma allocWells_chain (m : Nat → Nat) :
    ∀ N c u, (∀ k, c < k → m k = 0) → u ≤ 8 →
      List.Chain' allocStep (allocWells m N c u) := by
  intro N
  induction N with
  | zero => intro c u _ _; simp [allocWells]
  | succ n ih =>
    intro c u hm hu
    by_cases h : u = 8
    · rw [allocWells, if_pos h, hm (c + 1) (Nat.lt_succ_self c)]
      have hm' : ∀ k, c + 1 < k → m k = 0 := fun k hk => hm k (by omega)
      rw [List.chain'_cons']
      refine ⟨?_, ih (c + 1) (0 + 1) hm' (by norm_num)⟩
      intro b hb
      rcases Nat.eq_zero_or_pos n with hn | hn
      · subst hn; simp [allocWells] at hb
      · rw [allocWells_head m n (c + 1) (0 + 1) hm' hn] at hb
        simp only [Option.mem_def, Option.some.injEq] at hb
        subst hb
        simp [allocStep]
    · rw [allocWells, if_neg h]
      rw [List.chain'_cons']
      refine ⟨?_, ih c (u + 1) hm (by omega)⟩
      intro b hb
      rcases Nat.eq_zero_or_pos n with hn | hn
      · subst hn; simp [allocWells] at hb
      · rw [allocWells_head m n c (u + 1) hm hn] at hb
        simp only [Option.mem_def, Option.some.injEq] at hb
        subst hb
        by_cases h8 : u + 1 = 8 <;> simp [allocStep, h8]

lemma getLast?_cons_ne {α : Type} (a : α) (l : List α) (h : l ≠ []) :
    (a :: l).getLast? = l.getLast? := by
  cases l with
  | nil => exact absurd rfl h
  | cons b t => simp [List.getLast?_cons_cons]

lemma allocWells_getLast (m : Nat → Nat) :
    ∀ N c u, (∀ k, c < k → m k = 0) → u ≤ 8 → 1 ≤ N →
      ∃ cf uf, (allocWells m N c u).getLast? = some (cf, uf) ∧
        (cf, uf) ∈ allocWells m N c u ∧
        c ≤ cf ∧ 1 ≤ uf ∧ uf ≤ 8 ∧ (cf = c → u < uf) ∧
        ∀ p ∈ allocWells m N c u, p.1 ≤ cf ∧ (p.1 = cf → p.2 ≤ uf) := by
  intro N
  induction N with
  | zero => intro c u _ _ hN; omega
  | succ n ih =>
    intro c u hm hu _
    rcases Nat.eq_zero_or_pos n with hn | hn
    · subst hn
      by_cases h : u = 8
      · rw [allocWells, if_pos h, hm (c + 1) (Nat.lt_succ_self c)]
        refine ⟨c + 1, 0 + 1, by simp [allocWells], by simp [allocWells], by omega,
          by omega, by omega, by omega, ?_⟩
        intro p hp
        simp only [allocWells, List.mem_singleton] at hp
        subst hp
        exact ⟨le_rfl, fun _ => le_rfl⟩
      · rw [allocWells, if_neg h]
        refine ⟨c, u + 1, by simp [allocWells], by simp [allocWells], le_rfl,
          by omega, by omega, fun _ => by omega, ?_⟩
        intro p hp
        simp only [allocWells, List.mem_singleton] at hp
        subst hp
        exact ⟨le_rfl, fun _ => le_rfl⟩
    · by_cases h : u = 8
      · rw [allocWells, if_pos h, hm (c + 1) (Nat.lt_succ_self c)]
        have hm' : ∀ k, c + 1 < k → m k = 0 := fun k hk => hm k (by omega)
        obtain ⟨cf, uf, hlast, hmem, hle, huf1, huf8, hlt, hall⟩ :=
          ih (c + 1) (0 + 1) hm' (by norm_num) hn
        have hne : allocWells m n (c + 1) (0 + 1) ≠ [] := by
          intro hcon
          have := allocWells_length m n (c + 1) (0 + 1)
          rw [hcon] at this
          simp at this
          omega
        refine ⟨cf, uf, ?_, List.mem_cons_of_mem _ hmem, by omega, huf1, huf8,
          by omega, ?_⟩
        · rw [getLast?_cons_ne _ _ hne]; exact hlast
        · intro p hp
          rcases List.mem_cons.mp hp with hp | hp
          · subst hp
            exact ⟨hle, fun hc => le_of_lt (hlt hc.symm)⟩
          · exact hall p hp
      · rw [allocWells, if_neg h]
        obtain ⟨cf, uf, hlast, hmem, hle, huf1, huf8, hlt, hall⟩ :=
          ih c (u + 1) hm (by omega) hn
        have hne : allocWells m n c (u + 1) ≠ [] := by
          intro hcon
          have := allocWells_length m n c (u + 1)
          rw [hcon] at this
          simp at this
          omega
        refine ⟨cf, uf, ?_, List.mem_cons_of_mem _ hmem, hle, huf1, huf8,
          fun hc => by have := hlt hc; omega, ?_⟩
        · rw [getLast?_cons_ne _ _ hne]; exact hlast
        · intro p hp
          rcases List.mem_cons.mp hp with hp | hp
          · subst hp
            exact ⟨hle, fun hc => le_of_lt (hlt hc.symm)⟩
          · exact hall p hp

/-- C3: for every reaction count N ≥ 1 and every starting state (chip c,
used u with u ≤ 8, no recorded usage beyond chip c), the engine produces
exactly N pairs, every well lies in 1..8, consecutive pairs continue the
chip's wells contiguously and roll to chip+1 exactly when well 8 is
reached, the first pair continues (or, from a full chip, rolls); and from
an empty date with baseline chip 90, rxn_number = 10 yields
(90,1)...(90,8),(91,1),(91,2). -/
theorem C3_chip_well_rollover (m : Nat → Nat) (c u N : Nat)
    (hm : ∀ k, c < k → m k = 0) (hu : u ≤ 8) (hN : 1 ≤ N) :
    (allocWells m N c u).length = N ∧
    (∀ p ∈ allocWells m N c u, 1 ≤ p.2 ∧ p.2 ≤ 8) ∧
    (allocWells m N c u).head? = some (if u = 8 then (c + 1, 1) else (c, u + 1)) ∧
    List.Chain' allocStep (allocWells m N c u) ∧
    allocWells (fun _ => 0) 10 90 0 =
      [(90, 1), (90, 2), (90, 3), (90, 4), (90, 5), (90, 6), (90, 7), (90, 8),
       (91, 1), (91, 2)] := by
  exact ⟨allocWells_length m N c u, allocWells_wells m N c u hm hu,
    allocWells_head m N c u hm hN, allocWells_chain m N c u hm hu, by decide⟩

/-- Witness for C3 at the concrete state of the specification's example:
empty date usage map, baseline chip 90, zero wells used, ten reactions. -/
theorem C3_chip_well_rollover_app :
    (allocWells (fun _ => 0) 10 90 0).length = 10 ∧
    (∀ p ∈ allocWells (fun _ => 0) 10 90 0, 1 ≤ p.2 ∧ p.2 ≤ 8) ∧
    (allocWells (fun _ => 0) 10 90 0).head? =
      some (if 0 = 8 then (90 + 1, 1) else (90, 0 + 1)) ∧
    List.Chain' allocStep (allocWells (fun _ => 0) 10 90 0) ∧
    allocWells (fun _ => 0) 10 90 0 =
      [(90, 1), (90, 2), (90, 3), (90, 4), (90, 5), (90, 6), (90, 7), (90, 8),
       (91, 1), (91, 2)] :=
  C3_chip_well_rollover (fun _ => 0) 90 0 10 (fun _ _ => rfl) (by norm_num)
    (by norm_num)

/-! ## Names written to and parsed back from the sheet -/

/-- barcoded_cell_sample_name as composed in process_form_data line 452:
P{chip zero-filled to width 4}_{well}. -/
def mkBCSN (chip well : Nat) : Str :=
  'P' :: (zfill 4 (natToStr chip) ++ '_' :: natToStr well)

/-- The anchored regex match of _sheet_date_chip_usage (src/main.py line
277), pattern P(4 digits)_(1 digit): chip and well of a matching name. -/
def parseBCSN (s : Str) : Option (Nat × Nat) :=
  match s with
  | [p, a, b, c, d, sep, e] =>
    if p = 'P' ∧ sep = '_' ∧ isDigitC a ∧ isDigitC b ∧ isDigitC c ∧
        isDigitC d ∧ isDigitC e
    then some (((dval a * 10 + dval b) * 10 + dval c) * 10 + dval d, dval e)
    else none
  | _ => none

lemma str_length_four (l : Str) (h : l.length = 4) :
    ∃ a b c d, l = [a, b, c, d] := by
  cases l with
  | nil => simp at h
  | cons a t =>
    cases t with
    | nil => simp at h
    | cons b t2 =>
      cases t2 with
      | nil => simp at h
      | cons c t3 =>
        cases t3 with
        | nil => simp at h
        | cons d t4 =>
          cases t4 with
          | nil => exact ⟨a, b, c, d, rfl⟩
          | cons e t5 => simp at h

lemma natToStr_single (w : Nat) (h : w < 10) : natToStr w = [digitCh w] := by
  interval_cases w <;> rfl

lemma parseBCSN_mkBCSN (chip well : Nat) (hc : chip < 10000) (hw : well < 10) :
    parseBCSN (mkBCSN chip well) = some (chip, well) := by
  have hpow : chip < 10 ^ 4 := by
    have : (10 : ℕ) ^ 4 = 10000 := by norm_num
    omega
  have hlen : (zfill 4 (natToStr chip)).length = 4 :=
    zfill_length 4 _ (natToStr_length_le chip 4 (by norm_num) hpow)
  obtain ⟨a, b, c, d, habcd⟩ := str_length_four _ hlen
  have hdig : ∀ x ∈ [a, b, c, d], isDigitC x = true := by
    rw [← habcd]
    exact zfill_digits 4 (natToStr chip) (natToStr_digits chip)
  have hval : strVal [a, b, c, d] = chip := by
    rw [← habcd, strVal_zfill, strVal_natToStr]
  have hshape : mkBCSN chip well = ['P', a, b, c, d, '_', digitCh well] := by
    rw [mkBCSN, habcd, natToStr_single well hw]
    rfl
  rw [hshape, parseBCSN, if_pos]
  · congr 1
    have : strVal [a, b, c, d] =
        ((dval a * 10 + dval b) * 10 + dval c) * 10 + dval d := by
      simp [strVal]
    rw [this] at hval
    rw [hval, dval_digitCh well hw]
  · refine ⟨rfl, rfl, hdig a (by simp), hdig b (by simp), hdig c (by simp),
      hdig d (by simp), isDigitC_digitCh well hw⟩

/-- amplified_cdna_name as composed in _next_amp_name (src/main.py
317/332): {prefix}_{date}_{batch}_{letter}. -/
def mkAmpName (pre date : Str) (batch : Nat) (letter : Char) : Str :=
  pre ++ '_' :: (date ++ '_' :: (natToStr batch ++ ['_', letter]))

/-- Strip an exact literal from the front of a string; models the anchored
literal (escaped prefix and date) part of the _next_amp_name regex. -/
def dropLit : Str → Str → Option Str
  | [], s => some s
  | _ :: _, [] => none
  | p :: ps, c :: cs => if p = c then dropLit ps cs else none

/-- Tail of the _next_amp_name regex, applied to the reversal of what
follows the literal {prefix}_{date}_ part: one letter in A..H (code
points 65..72), then '_', then a non-empty digit group. -/
def parseAmpRev : Str → Option (Nat × Char)
  | L :: sep :: ds =>
    if sep = '_' ∧ ds ≠ [] ∧ ds.all isDigitC ∧ 65 ≤ L.toNat ∧ L.toNat ≤ 72
    then some (strVal ds.reverse, L)
    else none
  | _ => none

/-- The anchored regex match of _next_amp_name (src/main.py line 306):
after the literal {prefix}_{date}_, a non-empty digit group, then '_',
then one letter in A..H. -/
def parseAmp (pre date : Str) (s : Str) : Option (Nat × Char) :=
  (dropLit (pre ++ '_' :: (date ++ ['_'])) s).bind (fun r => parseAmpRev r.reverse)

lemma dropLit_append (p s : Str) : dropLit p (p ++ s) = some s := by
  induction p with
  | nil => rfl
  | cons c cs ih => simp [dropLit, ih]

lemma parseAmp_mkAmpName (pre date : Str) (b : Nat) (L : Char)
    (hL1 : 65 ≤ L.toNat) (hL2 : L.toNat ≤ 72) :
    parseAmp pre date (mkAmpName pre date b L) = some (b, L) := by
  have hshape : mkAmpName pre date b L =
      (pre ++ '_' :: (date ++ ['_'])) ++ (natToStr b ++ ['_', L]) := by
    simp [mkAmpName]
  rw [parseAmp, hshape, dropLit_append]
  have hrev : (natToStr b ++ ['_', L]).reverse =
      L :: '_' :: (natToStr b).reverse := by
    simp
  show parseAmpRev ((natToStr b ++ ['_', L]).reverse) = some (b, L)
  rw [hrev]
  have hds : ((natToStr b).reverse.all isDigitC) = true := by
    rw [List.all_eq_true]
    intro c hc
    exact natToStr_digits b c (List.mem_reverse.mp hc)
  rw [parseAmpRev, if_pos]
  · rw [List.reverse_reverse, strVal_natToStr]
  · refine ⟨rfl, ?_, hds, hL1, hL2⟩
    simpa using natToStr_ne_nil b

/-! ## Sheet rows and sheet-derived state -/

/-- Modality of a written row. -/
inductive Modality
  | RNA
  | ATAC
deriving DecidableEq

/-- One sheet row, restricted to the cells the derivation engine reads
back (experiment_start_date, barcoded_cell_sample_name,
amplified_cdna_name) plus bookkeeping for the rows this model writes
(modality and reaction index).  `none` models an empty or non-string
cell. -/
structure Row where
  date : Option Str := none
  bcsn : Option Str := none
  amp : Option Str := none
  modality : Option Modality := none
  rxn : Option Nat := none
deriving DecidableEq

/-- The (chip, well) pairs _sheet_date_chip_usage parses out of rows whose
experiment_start_date equals the submission date (src/main.py 270-282). -/
def datePairs (rows : List Row) (d : Option Str) : List (Nat × Nat) :=
  rows.filterMap (fun r => if r.date = d then r.bcsn.bind parseBCSN else none)

/-- chips_map of _sheet_date_chip_usage: the highest well recorded for a
chip on the date (0 when the chip has no entry, matching
chips_map.get(str(chip), 0)). -/
def chipsMapOf (ps : List (Nat × Nat)) (c : Nat) : Nat :=
  ps.foldl (fun a p => if p.1 = c then max a p.2 else a) 0

/-- The highest chip with entries on the date. -/
def maxChipOf (ps : List (Nat × Nat)) : Nat :=
  ps.foldl (fun a p => max a p.1) 0

/-- (last_chip, last_used) as derived at src/main.py 283-287. -/
def lastChipUsed (ps : List (Nat × Nat)) : Option Nat × Nat :=
  if ps.isEmpty then (none, 0)
  else (some (maxChipOf ps), chipsMapOf ps (maxChipOf ps))

/-- Starting chip/used state, src/main.py 406-415: continue the date's
last chip when the date already has rows; otherwise fall back to the
process-wide baseline chip 90 with zero wells used.  (The branch at lines
410-415 computes nothing else: the result of the second
_sheet_date_chip_usage call is discarded and the stored per-user
next_counter is never consulted; see C1.) -/
def startChipUsed (ps : List (Nat × Nat)) : Nat × Nat :=
  match lastChipUsed ps with
  | (some lc, lu) => (lc, lu)
  | (none, _) => (90, 0)

/-! ## The amplification-name scan of _next_amp_name -/

/-- The letter alphabet 'ABCDEFGH' of _next_amp_name. -/
def ampLetters : Str := ['A', 'B', 'C', 'D', 'E', 'F', 'G', 'H']

/-- Is the parsed (b, L) pair larger than the running (last_batch,
last_letter) state?  Python compares the single-letter strings by code
point (src/main.py line 311). -/
def ampBetter (st : Nat × Option Char) (b : Nat) (L : Char) : Bool :=
  decide (st.1 < b) ||
    (decide (b = st.1) &&
      (match st.2 with
       | none => true
       | some l => decide (l.toNat < L.toNat)))

/-- One row of the _next_amp_name scan loop (src/main.py 301-313). -/
def scanAmpUpd (pre date : Str) (st : Nat × Option Char) (r : Row) :
    Nat × Option Char :=
  match r.amp with
  | none => st
  | some v =>
    match parseAmp pre date v with
    | none => st
    | some (b, L) => if ampBetter st b L then (b, some L) else st

/-- The (last_batch, last_letter) state after scanning the whole sheet. -/
def scanAmpState (rows : List Row) (pre date : Str) : Nat × Option Char :=
  rows.foldl (scanAmpUpd pre date) (0, none)

/-- Advance to the next (batch, letter): src/main.py 315-331.  For a
letter produced by the regex ([A-H]), 'ABCDEFGH'.index(letter) equals
letter code point minus 65. -/
def nextAmpPair (st : Nat × Option Char) : Nat × Char :=
  if st.1 = 0 then (1, 'A')
  else
    match st.2 with
    | none => (st.1, 'A')
    | some l =>
      if l.toNat - 65 < 7 then (st.1, ampLetters.getD (l.toNat - 65 + 1) 'A')
      else (st.1 + 1, 'A')

/-- The full _next_amp_name derivation: scan the sheet, advance one step,
compose the name. -/
def nextAmpName (rows : List Row) (pre date : Str) : Str :=
  mkAmpName pre date (nextAmpPair (scanAmpState rows pre date)).1
    (nextAmpPair (scanAmpState rows pre date)).2

/-- The scan state an emitted name moves the scan to. -/
def stepSt (st : Nat × Option Char) : Nat × Option Char :=
  ((nextAmpPair st).1, some (nextAmpPair st).2)

/-- Reachable-scan-state invariant: a letter is only recorded together
with its batch, and only letters A..H are ever recorded. -/
def StOK (st : Nat × Option Char) : Prop :=
  (st.2 = none → st.1 = 0) ∧ ∀ l, st.2 = some l → 65 ≤ l.toNat ∧ l.toNat ≤ 72

lemma StOK_init : StOK (0, none) :=
  ⟨fun _ => rfl, fun l hl => by simp at hl⟩

lemma parseAmp_letter (pre date : Str) (s : Str) (b : Nat) (L : Char)
    (h : parseAmp pre date s = some (b, L)) : 65 ≤ L.toNat ∧ L.toNat ≤ 72 := by
  rw [parseAmp] at h
  cases hdl : dropLit (pre ++ '_' :: (date ++ ['_'])) s with
  | none => rw [hdl] at h; simp at h
  | some r =>
    rw [hdl] at h
    simp only [Option.some_bind] at h
    cases hr : r.reverse with
    | nil => rw [hr] at h; simp [parseAmpRev] at h
    | cons L2 t =>
      cases t with
      | nil => rw [hr] at h; simp [parseAmpRev] at h
      | cons sep ds =>
        rw [hr, parseAmpRev] at h
        by_cases hc : sep = '_' ∧ ds ≠ [] ∧ ds.all isDigitC = true ∧
            65 ≤ L2.toNat ∧ L2.toNat ≤ 72
        · rw [if_pos hc] at h
          have : L2 = L := by
            have := Option.some.inj h
            exact congrArg Prod.snd this
          subst this
          exact ⟨hc.2.2.2.1, hc.2.2.2.2⟩
        · rw [if_neg hc] at h; simp at h

lemma scanAmpUpd_StOK (pre date : Str) (st : Nat × Option Char) (r : Row)
    (h : StOK st) : StOK (scanAmpUpd pre date st r) := by
  cases hamp : r.amp with
  | none => simpa [scanAmpUpd, hamp] using h
  | some v =>
    cases hp : parseAmp pre date v with
    | none => simpa [scanAmpUpd, hamp, hp] using h
    | some p =>
      obtain ⟨b, L⟩ := p
      by_cases hb : ampBetter st b L = true
      · have hgoal : scanAmpUpd pre date st r = (b, some L) := by
          simp [scanAmpUpd, hamp, hp, hb]
        rw [hgoal]
        refine ⟨fun hcon => by simp at hcon, fun l hl => ?_⟩
        have : L = l := Option.some.inj hl
        subst this
        exact parseAmp_letter pre date v b L hp
      · have hgoal : scanAmpUpd pre date st r = st := by
          simp [scanAmpUpd, hamp, hp, hb]
        rw [hgoal]
        exact h

lemma scanAmpState_StOK (rows : List Row) (pre date : Str) :
    StOK (scanAmpState rows pre date) := by
  rw [scanAmpState]
  have : ∀ st, StOK st → StOK (rows.foldl (scanAmpUpd pre date) st) := by
    induction rows with
    | nil => intro st h; exact h
    | cons r t ih =>
      intro st h
      exact ih _ (scanAmpUpd_StOK pre date st r h)
  exact this _ StOK_init

lemma nextAmpPair_letter (st : Nat × Option Char) (h : StOK st) :
    65 ≤ (nextAmpPair st).2.toNat ∧ (nextAmpPair st).2.toNat ≤ 72 := by
  by_cases h0 : st.1 = 0
  · have hL : (nextAmpPair st).2 = 'A' := by simp [nextAmpPair, h0]
    rw [hL]; exact ⟨by decide, by decide⟩
  · cases h2 : st.2 with
    | none =>
      have hL : (nextAmpPair st).2 = 'A' := by simp [nextAmpPair, h0, h2]
      rw [hL]; exact ⟨by decide, by decide⟩
    | some l =>
      obtain ⟨hl1, hl2⟩ := h.2 l h2
      by_cases hidx : l.toNat - 65 < 7
      · have hL : (nextAmpPair st).2 = ampLetters.getD (l.toNat - 65 + 1) 'A' := by
          simp [nextAmpPair, h0, h2, hidx]
        rw [hL]
        have hcase : l.toNat = 65 ∨ l.toNat = 66 ∨ l.toNat = 67 ∨ l.toNat = 68 ∨
            l.toNat = 69 ∨ l.toNat = 70 ∨ l.toNat = 71 := by omega
        rcases hcase with h | h | h | h | h | h | h <;> rw [h] <;>
          exact ⟨by decide, by decide⟩
      · have hL : (nextAmpPair st).2 = 'A' := by simp [nextAmpPair, h0, h2, hidx]
        rw [hL]; exact ⟨by decide, by decide⟩

lemma nextAmpPair_batch (st : Nat × Option Char) :
    1 ≤ (nextAmpPair st).1 := by
  by_cases h0 : st.1 = 0
  · have hb : (nextAmpPair st).1 = 1 := by simp [nextAmpPair, h0]
    rw [hb]
  · cases h2 : st.2 with
    | none =>
      have hb : (nextAmpPair st).1 = st.1 := by simp [nextAmpPair, h0, h2]
      rw [hb]; exact Nat.pos_of_ne_zero h0
    | some l =>
      by_cases hidx : l.toNat - 65 < 7
      · have hb : (nextAmpPair st).1 = st.1 := by simp [nextAmpPair, h0, h2, hidx]
        rw [hb]; exact Nat.pos_of_ne_zero h0
      · have hb : (nextAmpPair st).1 = st.1 + 1 := by
          simp [nextAmpPair, h0, h2, hidx]
        rw [hb]; omega

lemma ampBetter_nextAmpPair (st : Nat × Option Char) (h : StOK st) :
    ampBetter st (nextAmpPair st).1 (nextAmpPair st).2 = true := by
  by_cases h0 : st.1 = 0
  · have hb : (nextAmpPair st).1 = 1 := by simp [nextAmpPair, h0]
    rw [hb]
    simp [ampBetter, h0]
  · cases h2 : st.2 with
    | none => exact absurd (h.1 h2) h0
    | some l =>
      obtain ⟨hl1, hl2⟩ := h.2 l h2
      by_cases hidx : l.toNat - 65 < 7
      · have hb : (nextAmpPair st).1 = st.1 := by simp [nextAmpPair, h0, h2, hidx]
        have hL : (nextAmpPair st).2 = ampLetters.getD (l.toNat - 65 + 1) 'A' := by
          simp [nextAmpPair, h0, h2, hidx]
        rw [hb, hL]
        have hlt : l.toNat < (ampLetters.getD (l.toNat - 65 + 1) 'A').toNat := by
          have hcase : l.toNat = 65 ∨ l.toNat = 66 ∨ l.toNat = 67 ∨
              l.toNat = 68 ∨ l.toNat = 69 ∨ l.toNat = 70 ∨ l.toNat = 71 := by
            omega
          rcases hcase with h | h | h | h | h | h | h <;> rw [h] <;> decide
        have hlt2 : l.toNat < (ampLetters[l.toNat - 65 + 1]?.getD 'A').toNat := by
          simpa [List.getD] using hlt
        simp [ampBetter, h2, hlt2]
      · have hb : (nextAmpPair st).1 = st.1 + 1 := by
          simp [nextAmpPair, h0, h2, hidx]
        rw [hb]
        simp [ampBetter]

lemma stepSt_StOK (st : Nat × Option Char) (h : StOK st) : StOK (stepSt st) := by
  refine ⟨fun hcon => by simp [stepSt] at hcon, fun l hl => ?_⟩
  have : (nextAmpPair st).2 = l := Option.some.inj hl
  rw [← this]
  exact nextAmpPair_letter st h

/-! ## Writing the submission's rows (process_form_data lines 450-468) -/

/-- The RNA row written by write_modality_data for reaction x: it carries
the submission date, the reaction's barcoded_cell_sample_name, and an
amplified_cdna_name freshly derived by scanning the sheet as written so
far (src/main.py 622-626). -/
def rnaRow (sheet : List Row) (pre ampD : Str) (d : Option Str) (x : Nat)
    (p : Nat × Nat) : Row :=
  { date := d, bcsn := some (mkBCSN p.1 p.2),
    amp := some (nextAmpName sheet pre ampD),
    modality := some Modality.RNA, rxn := some x }

/-- The ATAC row written by write_modality_data for reaction x: same date
and barcoded_cell_sample_name, no amplified_cdna_name. -/
def atacRow (d : Option Str) (x : Nat) (p : Nat × Nat) : Row :=
  { date := d, bcsn := some (mkBCSN p.1 p.2), amp := none,
    modality := some Modality.ATAC, rxn := some x }

/-- The double loop of process_form_data lines 450-468 over (reaction
index, assignment) pairs: one RNA row, then (unless the project is
HMBA_Aim4) one ATAC row per reaction, appended to the sheet in order. -/
def writeReactions (aim4 : Bool) (pre ampD : Str) (d : Option Str) :
    List Row → List (Nat × (Nat × Nat)) → List Row
  | sheet, [] => sheet
  | sheet, (x, p) :: rest =>
    writeReactions aim4 pre ampD d
      ((sheet ++ [rnaRow sheet pre ampD d x p]) ++
        (if aim4 then [] else [atacRow d x p]))
      rest

/-- Write a whole submission: enumerate the assignments and run the row
loop. -/
def writeSubmission (aim4 : Bool) (pre ampD : Str) (d : Option Str)
    (sheet : List Row) (A : List (Nat × Nat)) : List Row :=
  writeReactions aim4 pre ampD d sheet A.enum

/-- The names _next_amp_name produces across k consecutive RNA rows
starting from scan state st. -/
def ampNames (pre ampD : Str) : Nat × Option Char → Nat → List Str
  | _, 0 => []
  | st, k + 1 =>
    mkAmpName pre ampD (nextAmpPair st).1 (nextAmpPair st).2 ::
      ampNames pre ampD (stepSt st) k

/-- k emission steps of the scan state. -/
def stepStIter (st : Nat × Option Char) : Nat → Nat × Option Char
  | 0 => st
  | k + 1 => stepStIter (stepSt st) k

lemma scanAmpState_append (rows more : List Row) (pre ampD : Str) :
    scanAmpState (rows ++ more) pre ampD =
      more.foldl (scanAmpUpd pre ampD) (scanAmpState rows pre ampD) := by
  simp [scanAmpState, List.foldl_append]

lemma scanAmp_emit (sheet : List Row) (pre ampD : Str) (d : Option Str)
    (x : Nat) (p : Nat × Nat) :
    scanAmpUpd pre ampD (scanAmpState sheet pre ampD)
      (rnaRow sheet pre ampD d x p) = stepSt (scanAmpState sheet pre ampD) := by
  have hok := scanAmpState_StOK sheet pre ampD
  have hlet := nextAmpPair_letter _ hok
  have hparse := parseAmp_mkAmpName pre ampD
    (nextAmpPair (scanAmpState sheet pre ampD)).1
    (nextAmpPair (scanAmpState sheet pre ampD)).2 hlet.1 hlet.2
  have hbet := ampBetter_nextAmpPair _ hok
  simp [scanAmpUpd, rnaRow, nextAmpName, hparse, hbet, stepSt]

lemma scanAmpState_stepSheet (aim4 : Bool) (sheet : List Row)
    (pre ampD : Str) (d : Option Str) (x : Nat) (p : Nat × Nat) :
    scanAmpState ((sheet ++ [rnaRow sheet pre ampD d x p]) ++
      (if aim4 then [] else [atacRow d x p])) pre ampD =
      stepSt (scanAmpState sheet pre ampD) := by
  have h1 : scanAmpState (sheet ++ [rnaRow sheet pre ampD d x p]) pre ampD =
      stepSt (scanAmpState sheet pre ampD) := by
    rw [scanAmpState_append]
    simp only [List.foldl_cons, List.foldl_nil]
    exact scanAmp_emit sheet pre ampD d x p
  cases aim4 with
  | true => simpa using h1
  | false =>
    simp only [Bool.false_eq_true, if_neg, ite_false]
    rw [scanAmpState_append, h1]
    simp [scanAmpUpd, atacRow]

lemma datePairs_append (rows more : List Row) (d : Option Str) :
    datePairs (rows ++ more) d = datePairs rows d ++ datePairs more d := by
  simp [datePairs]

lemma datePairs_rna (sheet : List Row) (pre ampD : Str) (d : Option Str)
    (x : Nat) (p : Nat × Nat) (h1 : p.1 < 10000) (h2 : p.2 < 10) :
    datePairs [rnaRow sheet pre ampD d x p] d = [p] := by
  simp [datePairs, rnaRow, parseBCSN_mkBCSN p.1 p.2 h1 h2]

lemma datePairs_atac (d : Option Str) (x : Nat) (p : Nat × Nat)
    (h1 : p.1 < 10000) (h2 : p.2 < 10) :
    datePairs [atacRow d x p] d = [p] := by
  simp [datePairs, atacRow, parseBCSN_mkBCSN p.1 p.2 h1 h2]

lemma ampNames_length (pre ampD : Str) :
    ∀ k st, (ampNames pre ampD st k).length = k := by
  intro k
  induction k with
  | zero => intro st; rfl
  | succ n ih => intro st; simp [ampNames, ih]

lemma ampNames_getLast (pre ampD : Str) :
    ∀ k st, 1 ≤ k →
      ∃ b L, stepStIter st k = (b, some L) ∧
        (ampNames pre ampD st k).getLast? = some (mkAmpName pre ampD b L) := by
  intro k
  induction k with
  | zero => intro st h; omega
  | succ n ih =>
    intro st _
    rcases Nat.eq_zero_or_pos n with hn | hn
    · subst hn
      exact ⟨(nextAmpPair st).1, (nextAmpPair st).2, rfl, rfl⟩
    · obtain ⟨b, L, hiter, hlast⟩ := ih (stepSt st) hn
      refine ⟨b, L, hiter, ?_⟩
      rw [ampNames, getLast?_cons_ne]
      · exact hlast
      · intro hcon
        have := ampNames_length pre ampD n (stepSt st)
        rw [hcon] at this
        simp at this
        omega

/-- The combined effect of the row loop: rows are appended; the date's
parsed (chip, well) pairs grow by each assignment (once per modality);
the appended amplified_cdna_name cells are exactly the k-step emission
sequence; and the final scan state is the k-step iterate. -/
lemma writeReactions_spec (aim4 : Bool) (pre ampD : Str) (d : Option Str) :
    ∀ (l : List (Nat × (Nat × Nat))) (sheet : List Row),
      (∀ q ∈ l, q.2.1 < 10000 ∧ q.2.2 < 10) →
      ∃ new, writeReactions aim4 pre ampD d sheet l = sheet ++ new ∧
        datePairs (sheet ++ new) d =
          datePairs sheet d ++
            (l.map Prod.snd).flatMap (fun p => p :: (if aim4 then [] else [p])) ∧
        new.filterMap (fun r => r.amp) =
          ampNames pre ampD (scanAmpState sheet pre ampD) l.length ∧
        scanAmpState (sheet ++ new) pre ampD =
          stepStIter (scanAmpState sheet pre ampD) l.length := by
  intro l
  induction l with
  | nil =>
    intro sheet _
    exact ⟨[], by simp [writeReactions], by simp, rfl, by simp [stepStIter]⟩
  | cons q rest ih =>
    intro sheet hbound
    obtain ⟨x, p⟩ := q
    have hp := hbound (x, p) (List.mem_cons_self _ _)
    have hrest : ∀ q ∈ rest, q.2.1 < 10000 ∧ q.2.2 < 10 :=
      fun q hq => hbound q (List.mem_cons_of_mem _ hq)
    obtain ⟨new', heq, hdp, hamp, hscan⟩ :=
      ih ((sheet ++ [rnaRow sheet pre ampD d x p]) ++
        (if aim4 then [] else [atacRow d x p])) hrest
    refine ⟨([rnaRow sheet pre ampD d x p] ++
      (if aim4 then [] else [atacRow d x p])) ++ new', ?_, ?_, ?_, ?_⟩
    · rw [writeReactions, heq]
      simp [List.append_assoc]
    · have hsheet' : sheet ++ (([rnaRow sheet pre ampD d x p] ++
          (if aim4 then [] else [atacRow d x p])) ++ new') =
          ((sheet ++ [rnaRow sheet pre ampD d x p]) ++
            (if aim4 then [] else [atacRow d x p])) ++ new' := by
        simp [List.append_assoc]
      rw [hsheet', hdp]
      rw [datePairs_append, datePairs_append, datePairs_rna _ _ _ _ _ _ hp.1 hp.2]
      cases aim4 with
      | true => simp [datePairs]
      | false =>
        simp only [Bool.false_eq_true, ite_false]
        rw [datePairs_atac _ _ _ hp.1 hp.2]
        simp [datePairs]
    · rw [List.filterMap_append, List.filterMap_append, hamp,
        scanAmpState_stepSheet]
      have hhead : [rnaRow sheet pre ampD d x p].filterMap (fun r => r.amp) =
          [nextAmpName sheet pre ampD] := by
        simp [rnaRow]
      have htail : (if aim4 then [] else [atacRow d x p]).filterMap
          (fun r => r.amp) = [] := by
        cases aim4 <;> simp [atacRow]
      rw [hhead, htail]
      simp only [List.length_cons]
      rw [ampNames]
      simp [nextAmpName]
    · have hsheet' : sheet ++ (([rnaRow sheet pre ampD d x p] ++
          (if aim4 then [] else [atacRow d x p])) ++ new') =
          ((sheet ++ [rnaRow sheet pre ampD d x p]) ++
            (if aim4 then [] else [atacRow d x p])) ++ new' := by
        simp [List.append_assoc]
      rw [hsheet', hscan, scanAmpState_stepSheet]
      simp only [List.length_cons]
      rfl

/-! ## Characterizing the chip-usage scan -/

lemma foldlMaxFst_le (ps : List (Nat × Nat)) :
    ∀ i M, (∀ p ∈ ps, p.1 ≤ M) → i ≤ M →
      ps.foldl (fun a p => max a p.1) i ≤ M := by
  induction ps with
  | nil => intro i M _ hi; exact hi
  | cons q t ih =>
    intro i M hall hi
    simp only [List.foldl_cons]
    exact ih _ _ (fun p hp => hall p (List.mem_cons_of_mem _ hp))
      (max_le hi (hall q (List.mem_cons_self _ _)))

lemma le_foldlMaxFst_init (ps : List (Nat × Nat)) :
    ∀ i, i ≤ ps.foldl (fun a p => max a p.1) i := by
  induction ps with
  | nil => intro i; exact le_rfl
  | cons q t ih =>
    intro i
    simp only [List.foldl_cons]
    exact le_trans (le_max_left _ _) (ih _)

lemma le_foldlMaxFst (ps : List (Nat × Nat)) :
    ∀ i p, p ∈ ps → p.1 ≤ ps.foldl (fun a p => max a p.1) i := by
  induction ps with
  | nil => intro i p hp; simp at hp
  | cons q t ih =>
    intro i p hp
    simp only [List.foldl_cons]
    rcases List.mem_cons.mp hp with hp | hp
    · subst hp
      exact le_trans (le_max_right _ _) (le_foldlMaxFst_init t _)
    · exact ih _ p hp

lemma chipsFold_le (c : Nat) (ps : List (Nat × Nat)) :
    ∀ i M, (∀ p ∈ ps, p.1 = c → p.2 ≤ M) → i ≤ M →
      ps.foldl (fun a p => if p.1 = c then max a p.2 else a) i ≤ M := by
  induction ps with
  | nil => intro i M _ hi; exact hi
  | cons q t ih =>
    intro i M hall hi
    simp only [List.foldl_cons]
    by_cases hq : q.1 = c
    · rw [if_pos hq]
      exact ih _ _ (fun p hp => hall p (List.mem_cons_of_mem _ hp))
        (max_le hi (hall q (List.mem_cons_self _ _) hq))
    · rw [if_neg hq]
      exact ih _ _ (fun p hp => hall p (List.mem_cons_of_mem _ hp)) hi

lemma le_chipsFold_init (c : Nat) (ps : List (Nat × Nat)) :
    ∀ i, i ≤ ps.foldl (fun a p => if p.1 = c then max a p.2 else a) i := by
  induction ps with
  | nil => intro i; exact le_rfl
  | cons q t ih =>
    intro i
    simp only [List.foldl_cons]
    by_cases hq : q.1 = c
    · rw [if_pos hq]
      exact le_trans (le_max_left _ _) (ih _)
    · rw [if_neg hq]
      exact ih _

lemma le_chipsFold (c : Nat) (ps : List (Nat × Nat)) :
    ∀ i p, p ∈ ps → p.1 = c →
      p.2 ≤ ps.foldl (fun a p => if p.1 = c then max a p.2 else a) i := by
  induction ps with
  | nil => intro i p hp; simp at hp
  | cons q t ih =>
    intro i p hp hc
    simp only [List.foldl_cons]
    rcases List.mem_cons.mp hp with hp | hp
    · subst hp
      rw [if_pos hc]
      exact le_trans (le_max_right _ _) (le_chipsFold_init c t _)
    · exact ih _ p hp hc

lemma chipsFold_const (c : Nat) :
    ∀ (ps : List (Nat × Nat)), (∀ p ∈ ps, p.1 ≠ c) →
      ∀ i, ps.foldl (fun a p => if p.1 = c then max a p.2 else a) i = i := by
  intro ps
  induction ps with
  | nil => intro _ i; rfl
  | cons q t ih =>
    intro h i
    simp only [List.foldl_cons]
    rw [if_neg (h q (List.mem_cons_self _ _))]
    exact ih (fun p hp => h p (List.mem_cons_of_mem _ hp)) i

lemma chipsMapOf_zero (ps : List (Nat × Nat)) (c : Nat)
    (h : ∀ p ∈ ps, p.1 ≠ c) : chipsMapOf ps c = 0 :=
  chipsFold_const c ps h 0

lemma chipsMapOf_le (ps : List (Nat × Nat)) (c M : Nat)
    (h : ∀ p ∈ ps, p.2 ≤ M) : chipsMapOf ps c ≤ M :=
  chipsFold_le c ps 0 M (fun p hp _ => h p hp) (Nat.zero_le M)

/-- The scan's (last_chip, last_used) is determined by any pair that
dominates the whole list: it is the maximal chip together with the
maximal well recorded on it. -/
lemma lastChipUsed_eq (ps : List (Nat × Nat)) (cf uf : Nat)
    (hmem : (cf, uf) ∈ ps)
    (hall : ∀ p ∈ ps, p.1 ≤ cf ∧ (p.1 = cf → p.2 ≤ uf)) :
    lastChipUsed ps = (some cf, uf) := by
  have hne : ps ≠ [] := List.ne_nil_of_mem hmem
  have hempty : ps.isEmpty = false := by
    rw [List.isEmpty_eq_false_iff_exists_mem]
    exact ⟨_, hmem⟩
  have hmax : maxChipOf ps = cf := by
    apply le_antisymm
    · exact foldlMaxFst_le ps 0 cf (fun p hp => (hall p hp).1) (Nat.zero_le cf)
    · exact le_foldlMaxFst ps 0 (cf, uf) hmem
  have hused : chipsMapOf ps cf = uf := by
    apply le_antisymm
    · exact chipsFold_le cf ps 0 uf (fun p hp hc => (hall p hp).2 hc)
        (Nat.zero_le uf)
    · exact le_chipsFold cf ps 0 (cf, uf) hmem rfl
  rw [lastChipUsed, hempty]
  simp only [Bool.false_eq_true, if_neg]
  rw [hmax, hused]
  simp

lemma startChipUsed_nil : startChipUsed [] = (90, 0) := rfl

lemma startChipUsed_of_ne_nil (ps : List (Nat × Nat)) (h : ps ≠ []) :
    startChipUsed ps = (maxChipOf ps, chipsMapOf ps (maxChipOf ps)) := by
  have hempty : ps.isEmpty = false := by
    rw [List.isEmpty_eq_false_iff_exists_mem]
    cases ps with
    | nil => exact absurd rfl h
    | cons q t => exact ⟨q, List.mem_cons_self _ _⟩
  rw [startChipUsed, lastChipUsed, hempty]
  simp

/-- The derived starting state satisfies the assignment engine's
preconditions: nothing is recorded beyond the starting chip, the starting
used count respects the well bound, and every recorded chip is at most
the starting chip. -/
lemma startChipUsed_spec (ps : List (Nat × Nat))
    (hwell : ∀ p ∈ ps, p.2 ≤ 8) :
    (∀ k, (startChipUsed ps).1 < k → chipsMapOf ps k = 0) ∧
    (startChipUsed ps).2 ≤ 8 ∧
    (∀ p ∈ ps, p.1 ≤ (startChipUsed ps).1) ∧
    (ps ≠ [] → (startChipUsed ps).2 = chipsMapOf ps (startChipUsed ps).1) := by
  by_cases h : ps = []
  · subst h
    refine ⟨fun k _ => rfl, by simp [startChipUsed_nil], by simp, by simp⟩
  · rw [startChipUsed_of_ne_nil ps h]
    refine ⟨?_, chipsMapOf_le ps _ 8 hwell, ?_, fun _ => rfl⟩
    · intro k hk
      apply chipsMapOf_zero
      intro p hp
      have := le_foldlMaxFst ps 0 p hp
      have hle : p.1 ≤ maxChipOf ps := this
      omega
    · intro p hp
      exact le_foldlMaxFst ps 0 p hp

/-! ## The assembled submission pipeline of process_form_data -/

/-- The assignments process_form_data derives for a submission of N
reactions on a loaded sheet: chip state from the date scan (baseline 90
when the date has no rows), then the well-allocation loop. -/
def submissionAlloc (rows : List Row) (d : Option Str) (N : Nat) :
    List (Nat × Nat) :=
  allocWells (chipsMapOf (datePairs rows d)) N
    (startChipUsed (datePairs rows d)).1 (startChipUsed (datePairs rows d)).2

/-- The sheet after process_form_data has composed all rows of a
submission of N reactions. -/
def submissionSheet (aim4 : Bool) (pre ampD : Str) (d : Option Str)
    (rows : List Row) (N : Nat) : List Row :=
  writeSubmission aim4 pre ampD d rows (submissionAlloc rows d N)

lemma mem_dup_elim {aim4 : Bool} {p q : Nat × Nat}
    (h : p ∈ q :: (if aim4 then ([] : List (Nat × Nat)) else [q])) : p = q := by
  cases aim4 <;> simpa using h

/-- C4: writing a submission of N ≥ 1 reactions and then re-deriving the
state from the resulting sheet yields exactly the in-memory state after
writing: the (last_chip, last_used) scanned from the new sheet equals the
last assigned (chip, well) pair, and the greatest (batch, letter) scanned
for the (prefix, date) pair is the pair of the last emitted
amplified_cdna_name.  Side conditions: the sheet's recorded wells respect
the 8-well bound and the allocated chips fit the 4-digit name format, as
in every log the code itself writes. -/
theorem C4_roundtrip_state (aim4 : Bool) (rows : List Row) (pre ampD : Str)
    (d : Option Str) (N : Nat) (hN : 1 ≤ N)
    (hwell : ∀ p ∈ datePairs rows d, p.2 ≤ 8)
    (hchip : ∀ p ∈ submissionAlloc rows d N, p.1 < 10000) :
    ∃ cf uf b L,
      (submissionAlloc rows d N).getLast? = some (cf, uf) ∧
      lastChipUsed (datePairs (submissionSheet aim4 pre ampD d rows N) d) =
        (some cf, uf) ∧
      (((submissionSheet aim4 pre ampD d rows N).drop rows.length).filterMap
        (fun r => r.amp)).getLast? = some (mkAmpName pre ampD b L) ∧
      scanAmpState (submissionSheet aim4 pre ampD d rows N) pre ampD =
        (b, some L) := by
  obtain ⟨hm, hu, hple, hlastc⟩ := startChipUsed_spec (datePairs rows d) hwell
  set ps := datePairs rows d with hps
  set c := (startChipUsed ps).1 with hcdef
  set u := (startChipUsed ps).2 with hudef
  set m := chipsMapOf ps with hmdef
  have hAdef : submissionAlloc rows d N = allocWells m N c u := rfl
  obtain ⟨cf, uf, hlast, hmemA, hcle, huf1, huf8, hlt, hallA⟩ :=
    allocWells_getLast m N c u hm hu hN
  have hwellsA := allocWells_wells m N c u hm hu
  have hboundl : ∀ q ∈ (allocWells m N c u).enum,
      q.2.1 < 10000 ∧ q.2.2 < 10 := by
    intro q hq
    have hq2 : q.2 ∈ allocWells m N c u := by
      have := List.mem_map_of_mem Prod.snd hq
      rwa [List.enum_map_snd] at this
    refine ⟨hchip q.2 (by rwa [hAdef]), ?_⟩
    have := hwellsA q.2 hq2
    omega
  obtain ⟨new, heq, hdp, hamp, hscan⟩ :=
    writeReactions_spec aim4 pre ampD d (allocWells m N c u).enum rows hboundl
  have hsheet : submissionSheet aim4 pre ampD d rows N = rows ++ new := by
    rw [submissionSheet, writeSubmission, hAdef]
    exact heq
  rw [List.enum_map_snd] at hdp
  have hlenl : (allocWells m N c u).enum.length = N := by
    rw [List.enum_length, allocWells_length]
  rw [hlenl] at hamp hscan
  obtain ⟨b, L, hiter, hlastamp⟩ :=
    ampNames_getLast pre ampD N (scanAmpState rows pre ampD) hN
  refine ⟨cf, uf, b, L, by rw [hAdef]; exact hlast, ?_, ?_, ?_⟩
  · rw [hsheet, hdp]
    apply lastChipUsed_eq
    · apply List.mem_append_right
      rw [List.mem_flatMap]
      exact ⟨(cf, uf), hmemA, List.mem_cons_self _ _⟩
    · intro p hp
      rcases List.mem_append.mp hp with hp | hp
      · have hp1 : p.1 ≤ c := hple p hp
        refine ⟨le_trans hp1 hcle, fun hpc => ?_⟩
        rcases lt_or_eq_of_le hcle with hlt2 | heq2
        · omega
        · have hne : ps ≠ [] := List.ne_nil_of_mem hp
          have hueq : u = chipsMapOf ps c := hlastc hne
          have hple2 : p.2 ≤ chipsMapOf ps c :=
            le_chipsFold c ps 0 p hp (by omega)
          have huuf : u < uf := hlt heq2.symm
          omega
      · obtain ⟨q, hqA, hqmem⟩ := List.mem_flatMap.mp hp
        have hpq : p = q := mem_dup_elim hqmem
        subst hpq
        exact hallA p hqA
  · rw [hsheet, List.drop_left, hamp]
    exact hlastamp
  · rw [hsheet, hscan]
    exact hiter

/-- Witness for C4 at a concrete submission: empty sheet, date 251001,
prefix APHKXR, two reactions, a two-modality project. -/
theorem C4_roundtrip_state_app :
    ∃ cf uf b L,
      (submissionAlloc [] (some ['2', '5', '1', '0', '0', '1']) 2).getLast? =
        some (cf, uf) ∧
      lastChipUsed (datePairs (submissionSheet false
        ['A', 'P', 'H', 'K', 'X', 'R'] ['2', '5', '1', '0', '0', '1']
        (some ['2', '5', '1', '0', '0', '1']) [] 2)
        (some ['2', '5', '1', '0', '0', '1'])) = (some cf, uf) ∧
      (((submissionSheet false ['A', 'P', 'H', 'K', 'X', 'R']
        ['2', '5', '1', '0', '0', '1'] (some ['2', '5', '1', '0', '0', '1'])
        [] 2).drop ([] : List Row).length).filterMap
        (fun r => r.amp)).getLast? =
        some (mkAmpName ['A', 'P', 'H', 'K', 'X', 'R']
          ['2', '5', '1', '0', '0', '1'] b L) ∧
      scanAmpState (submissionSheet false ['A', 'P', 'H', 'K', 'X', 'R']
        ['2', '5', '1', '0', '0', '1'] (some ['2', '5', '1', '0', '0', '1'])
        [] 2) ['A', 'P', 'H', 'K', 'X', 'R'] ['2', '5', '1', '0', '0', '1'] =
        (b, some L) :=
  C4_roundtrip_state false [] ['A', 'P', 'H', 'K', 'X', 'R']
    ['2', '5', '1', '0', '0', '1'] (some ['2', '5', '1', '0', '0', '1']) 2
    (by norm_num) (by decide) (by decide)

/-! ## C5: the next-amplification-code rule -/

/-- The (batch, letter) pairs present in the sheet for a (prefix, date)
pair, in row order. -/
def ampPairsOf (rows : List Row) (pre date : Str) : List (Nat × Char) :=
  rows.filterMap (fun r => r.amp.bind (parseAmp pre date))

/-- One step of the scan expressed on parsed pairs. -/
def ampPairFold (st : Nat × Option Char) (p : Nat × Char) :
    Nat × Option Char :=
  if ampBetter st p.1 p.2 then (p.1, some p.2) else st

/-- The specification's ordering on (batch, letter) pairs. -/
def ampLE (p q : Nat × Char) : Prop :=
  p.1 < q.1 ∨ (p.1 = q.1 ∧ p.2.toNat ≤ q.2.toNat)

/-- The specification's advance rule: letter + 1, wrapping to 'A' with
batch + 1 after 'H'. -/
def specAdvance (p : Nat × Char) : Nat × Char :=
  if p.2 = 'H' then (p.1 + 1, 'A') else (p.1, Char.ofNat (p.2.toNat + 1))

/-- Numeric key of a (batch, letter) pair, for comparisons. -/
def pairKey (b : Nat) (L : Char) : Nat := b * 1000 + L.toNat

/-- Numeric key of a scan state. -/
def stateKey (st : Nat × Option Char) : Nat :=
  match st.2 with
  | none => st.1 * 1000
  | some l => st.1 * 1000 + l.toNat

lemma scan_fold_general (pre date : Str) :
    ∀ (rows : List Row) (st : Nat × Option Char),
      rows.foldl (scanAmpUpd pre date) st =
        (rows.filterMap (fun r => r.amp.bind (parseAmp pre date))).foldl
          ampPairFold st := by
  intro rows
  induction rows with
  | nil => intro st; rfl
  | cons r t ih =>
    intro st
    simp only [List.foldl_cons]
    cases hamp : r.amp with
    | none =>
      have h1 : scanAmpUpd pre date st r = st := by simp [scanAmpUpd, hamp]
      rw [h1, List.filterMap_cons]
      simp only [hamp, Option.none_bind]
      exact ih st
    | some v =>
      cases hp : parseAmp pre date v with
      | none =>
        have h1 : scanAmpUpd pre date st r = st := by
          simp [scanAmpUpd, hamp, hp]
        rw [h1, List.filterMap_cons]
        simp only [hamp, Option.some_bind, hp]
        exact ih st
      | some q =>
        obtain ⟨b, L⟩ := q
        have h1 : scanAmpUpd pre date st r = ampPairFold st (b, L) := by
          simp [scanAmpUpd, hamp, hp, ampPairFold]
        rw [h1, List.filterMap_cons]
        simp only [hamp, Option.some_bind, hp]
        simp only [List.foldl_cons]
        exact ih _

lemma scanAmpState_eq_fold (rows : List Row) (pre date : Str) :
    scanAmpState rows pre date =
      (ampPairsOf rows pre date).foldl ampPairFold (0, none) := by
  rw [scanAmpState, ampPairsOf]
  exact scan_fold_general pre date rows (0, none)

lemma ampPairsOf_letter (rows : List Row) (pre date : Str) :
    ∀ p ∈ ampPairsOf rows pre date, 65 ≤ p.2.toNat ∧ p.2.toNat ≤ 72 := by
  intro p hp
  simp only [ampPairsOf, List.mem_filterMap] at hp
  obtain ⟨r, _, hb⟩ := hp
  cases hamp : r.amp with
  | none => rw [hamp] at hb; simp at hb
  | some v =>
    rw [hamp] at hb
    simp only [Option.some_bind] at hb
    obtain ⟨b, L⟩ := p
    exact parseAmp_letter pre date v b L hb

lemma charEq_of_toNat_eq (a b : Char) (h : a.toNat = b.toNat) : a = b := by
  have hval : a.val = b.val := by
    apply UInt32.ext
    exact h
  exact Char.eq_of_val_eq hval

lemma ampBetter_iff_key (st : Nat × Option Char) (b : Nat) (L : Char)
    (hst : ∀ l, st.2 = some l → l.toNat ≤ 999)
    (hL1 : 1 ≤ L.toNat) (hL2 : L.toNat ≤ 999) :
    ampBetter st b L = true ↔ stateKey st < pairKey b L := by
  obtain ⟨sb, sl⟩ := st
  cases sl with
  | none =>
    simp only [ampBetter, stateKey, pairKey, Bool.or_eq_true, decide_eq_true_eq,
      Bool.and_eq_true, and_true]
    omega
  | some l =>
    have hl : l.toNat ≤ 999 := hst l rfl
    simp only [ampBetter, stateKey, pairKey, Bool.or_eq_true, decide_eq_true_eq,
      Bool.and_eq_true]
    omega

lemma ampPairFold_spec :
    ∀ (qs : List (Nat × Char)) (st : Nat × Option Char),
      (∀ l, st.2 = some l → l.toNat ≤ 999) →
      (∀ p ∈ qs, 1 ≤ p.2.toNat ∧ p.2.toNat ≤ 999) →
      (qs.foldl ampPairFold st = st ∨
        ∃ p ∈ qs, qs.foldl ampPairFold st = (p.1, some p.2)) ∧
      stateKey st ≤ stateKey (qs.foldl ampPairFold st) ∧
      (∀ p ∈ qs, pairKey p.1 p.2 ≤ stateKey (qs.foldl ampPairFold st)) ∧
      (∀ l, (qs.foldl ampPairFold st).2 = some l → l.toNat ≤ 999) := by
  intro qs
  induction qs with
  | nil =>
    intro st hst _
    exact ⟨Or.inl rfl, le_rfl, by simp, hst⟩
  | cons q t ih =>
    intro st hst hq
    obtain ⟨b, L⟩ := q
    have hqb := hq (b, L) (List.mem_cons_self _ _)
    have hqt : ∀ p ∈ t, 1 ≤ p.2.toNat ∧ p.2.toNat ≤ 999 :=
      fun p hp => hq p (List.mem_cons_of_mem _ hp)
    simp only [List.foldl_cons]
    by_cases hbet : ampBetter st b L = true
    · have hst' : ampPairFold st (b, L) = (b, some L) := by
        simp [ampPairFold, hbet]
      rw [hst']
      have hkey : stateKey st < pairKey b L :=
        (ampBetter_iff_key st b L hst hqb.1 hqb.2).mp hbet
      have hstok : ∀ l, ((b, some L) : Nat × Option Char).2 = some l →
          l.toNat ≤ 999 := by
        intro l hl
        have hLl : L = l := Option.some.inj hl
        rw [← hLl]
        exact hqb.2
      obtain ⟨hres, hmono, hbound, hok⟩ := ih (b, some L) hstok hqt
      have hbkey : stateKey ((b, some L) : Nat × Option Char) = pairKey b L := rfl
      refine ⟨?_, by omega, ?_, hok⟩
      · rcases hres with h | ⟨p, hp, h⟩
        · exact Or.inr ⟨(b, L), List.mem_cons_self _ _, h⟩
        · exact Or.inr ⟨p, List.mem_cons_of_mem _ hp, h⟩
      · intro p hp
        rcases List.mem_cons.mp hp with hp | hp
        · rw [hp]
          show pairKey b L ≤ _
          omega
        · exact hbound p hp
    · have hst' : ampPairFold st (b, L) = st := by simp [ampPairFold, hbet]
      rw [hst']
      have hkey : ¬ stateKey st < pairKey b L := fun hcon =>
        hbet ((ampBetter_iff_key st b L hst hqb.1 hqb.2).mpr hcon)
      obtain ⟨hres, hmono, hbound, hok⟩ := ih st hst hqt
      refine ⟨?_, hmono, ?_, hok⟩
      · rcases hres with h | ⟨p, hp, h⟩
        · exact Or.inl h
        · exact Or.inr ⟨p, List.mem_cons_of_mem _ hp, h⟩
      · intro p hp
        rcases List.mem_cons.mp hp with hp | hp
        · rw [hp]
          show pairKey b L ≤ _
          omega
        · exact hbound p hp

lemma nextAmpPair_eq_specAdvance (b : Nat) (L : Char) (hb : 1 ≤ b)
    (hL1 : 65 ≤ L.toNat) (hL2 : L.toNat ≤ 72) :
    nextAmpPair (b, some L) = specAdvance (b, L) := by
  have hb0 : ¬ ((b, some L) : Nat × Option Char).1 = 0 := by simp; omega
  by_cases h72 : L.toNat = 72
  · have hLH : L = 'H' := charEq_of_toNat_eq L 'H' (by rw [h72]; rfl)
    have hidx : ¬ (L.toNat - 65 < 7) := by omega
    simp only [specAdvance, if_pos (show ((b, L) : Nat × Char).2 = 'H' from hLH)]
    simp [nextAmpPair, hb0, hidx]
  · have hLH : ((b, L) : Nat × Char).2 ≠ 'H' := by
      intro hcon
      have : L.toNat = 72 := by rw [show L = 'H' from hcon]; rfl
      exact h72 this
    have hidx : L.toNat - 65 < 7 := by omega
    have hgd : ampLetters.getD (L.toNat - 65 + 1) 'A' = Char.ofNat (L.toNat + 1) := by
      have hcase : L.toNat = 65 ∨ L.toNat = 66 ∨ L.toNat = 67 ∨ L.toNat = 68 ∨
          L.toNat = 69 ∨ L.toNat = 70 ∨ L.toNat = 71 := by omega
      rcases hcase with h | h | h | h | h | h | h <;> rw [h] <;> decide
    have hgd2 : ampLetters[L.toNat - 65 + 1]?.getD 'A' = Char.ofNat (L.toNat + 1) := by
      simpa [List.getD] using hgd
    simp only [specAdvance, if_neg hLH]
    simp [nextAmpPair, hb0, hidx, hgd2]

/-- The amplification prefix of the 9-reaction example. -/
def ampPre0 : Str := ['A', 'P', 'H', 'K', 'T', 'X']

/-- The date of the 9-reaction example. -/
def date0 : Str := ['2', '5', '1', '0', '0', '1']

/-- A sheet row holding one amplified name; used in the C5 witness. -/
def rowC : Row := { amp := some (mkAmpName ampPre0 date0 1 'C') }

/-- C5: for every (prefix, date) pair the next amplification code is
obtained by taking the greatest (batch, letter) pair present in the sheet
and advancing one step (letter + 1, wrapping to 'A' with batch + 1 after
'H'), starting at (1, 'A') when none is present; and 9 consecutive RNA
reactions for one (prefix, date) on an initially empty log produce names
ending _1_A through _1_H and then _2_A. -/
theorem C5_next_amp_code :
    (∀ (rows : List Row) (pre date : Str),
      ampPairsOf rows pre date = [] →
      nextAmpName rows pre date = mkAmpName pre date 1 'A') ∧
    (∀ (rows : List Row) (pre date : Str),
      ampPairsOf rows pre date ≠ [] →
      (∀ p ∈ ampPairsOf rows pre date, 1 ≤ p.1) →
      ∃ b L, (b, L) ∈ ampPairsOf rows pre date ∧
        scanAmpState rows pre date = (b, some L) ∧
        (∀ p ∈ ampPairsOf rows pre date, ampLE p (b, L)) ∧
        nextAmpName rows pre date =
          mkAmpName pre date (specAdvance (b, L)).1 (specAdvance (b, L)).2) ∧
    (submissionSheet true ampPre0 date0 (some date0) [] 9).filterMap
      (fun r => r.amp) =
      [mkAmpName ampPre0 date0 1 'A', mkAmpName ampPre0 date0 1 'B',
       mkAmpName ampPre0 date0 1 'C', mkAmpName ampPre0 date0 1 'D',
       mkAmpName ampPre0 date0 1 'E', mkAmpName ampPre0 date0 1 'F',
       mkAmpName ampPre0 date0 1 'G', mkAmpName ampPre0 date0 1 'H',
       mkAmpName ampPre0 date0 2 'A'] := by
  refine ⟨?_, ?_, by decide⟩
  · intro rows pre date hq
    simp only [nextAmpName]
    rw [scanAmpState_eq_fold, hq]
    rfl
  · intro rows pre date hne hbatch
    have hlet := ampPairsOf_letter rows pre date
    have hbounds : ∀ p ∈ ampPairsOf rows pre date,
        1 ≤ p.2.toNat ∧ p.2.toNat ≤ 999 := by
      intro p hp
      have := hlet p hp
      omega
    obtain ⟨hres, _, hbound, _⟩ := ampPairFold_spec (ampPairsOf rows pre date)
      (0, none) (by intro l hl; simp at hl) hbounds
    rcases hres with h0 | hmem
    · exfalso
      obtain ⟨p, hp⟩ := List.exists_mem_of_ne_nil _ hne
      have hb := hbound p hp
      rw [h0] at hb
      have h65 := (hlet p hp).1
      simp only [stateKey, pairKey] at hb
      omega
    · obtain ⟨p, hp, hfoldeq⟩ := hmem
      obtain ⟨b, L⟩ := p
      refine ⟨b, L, hp, ?_, ?_, ?_⟩
      · rw [scanAmpState_eq_fold]
        exact hfoldeq
      · intro q hq
        have hbd := hbound q hq
        rw [hfoldeq] at hbd
        have hq65 := hlet q hq
        have hb65 : 65 ≤ L.toNat ∧ L.toNat ≤ 72 := hlet (b, L) hp
        have hbd2 : q.1 * 1000 + q.2.toNat ≤ b * 1000 + L.toNat := by
          simpa [stateKey, pairKey] using hbd
        show q.1 < b ∨ (q.1 = b ∧ q.2.toNat ≤ L.toNat)
        omega
      · have hb1 : 1 ≤ b := hbatch (b, L) hp
        have hL := hlet (b, L) hp
        have hnp := nextAmpPair_eq_specAdvance b L hb1 hL.1 hL.2
        simp only [nextAmpName]
        rw [scanAmpState_eq_fold, hfoldeq, hnp]

/-- Witness for C5 on a sheet holding one amplification name (batch 1,
letter C): the scan finds it and the next code is batch 1, letter D. -/
theorem C5_next_amp_code_app :
    ∃ b L, (b, L) ∈ ampPairsOf [rowC] ampPre0 date0 ∧
      scanAmpState [rowC] ampPre0 date0 = (b, some L) ∧
      (∀ p ∈ ampPairsOf [rowC] ampPre0 date0, ampLE p (b, L)) ∧
      nextAmpName [rowC] ampPre0 date0 =
        mkAmpName ampPre0 date0 (specAdvance (b, L)).1 (specAdvance (b, L)).2 :=
  C5_next_amp_code.2.1 [rowC] ampPre0 date0 (by decide) (by decide)

/-! ## C8: the sequencing-index normalizer (convert_index / pad_index) -/

/-- The shape dispatch of convert_index (src/main.py 237-247), applied to
the stripped, uppercased input. -/
def convert_index_core : Str → Option Str
  | [a, b, c] =>
    if isDigitC a && isDigitC b && isAlphaC c then some [c, a, b]
    else if isAlphaC a && isDigitC b && isDigitC c then some [a, b, c]
    else none
  | [a, b] =>
    if isDigitC a && isAlphaC b then some [b, '0', a]
    else if isAlphaC a && isDigitC b then some [a, '0', b]
    else none
  | _ => none

/-- convert_index (src/main.py 235-247): strip and uppercase, then
normalize a 2- or 3-character sequencing index; None for any other
shape. -/
def convert_index (s : Str) : Option Str :=
  convert_index_core ((pyStrip s).map Char.toUpper)

/-- pad_index (src/main.py 249-252): left-pad a {letter}{digit} index to
{letter}0{digit}; anything else passes through. -/
def pad_index (s : Str) : Str :=
  match s with
  | [a, b] => if isAlphaC a && isDigitC b then [a, '0', b] else s
  | _ => s

/-- The input shapes convert_index accepts. -/
def validIndexShape : Str → Bool
  | [a, b, c] => (isDigitC a && isDigitC b && isAlphaC c) ||
      (isAlphaC a && isDigitC b && isDigitC c)
  | [a, b] => (isDigitC a && isAlphaC b) || (isAlphaC a && isDigitC b)
  | _ => false

lemma isDigitC_of_isAlphaC (x : Char) (h : isAlphaC x = true) :
    isDigitC x = false := by
  simp only [isAlphaC, Bool.or_eq_true, Bool.and_eq_true, decide_eq_true_eq] at h
  rw [Bool.eq_false_iff]
  intro hcon
  simp only [isDigitC, Bool.and_eq_true, decide_eq_true_eq] at hcon
  omega

lemma convert_index_core_shape (t y : Str) (h : convert_index_core t = some y) :
    ∃ a b c, y = [a, b, c] := by
  rcases t with _ | ⟨a, _ | ⟨b, _ | ⟨c, _ | ⟨d, rest⟩⟩⟩⟩
  · simp [convert_index_core] at h
  · simp [convert_index_core] at h
  · rw [convert_index_core] at h
    split at h
    · exact ⟨b, '0', a, (Option.some.inj h).symm⟩
    · split at h
      · exact ⟨a, '0', b, (Option.some.inj h).symm⟩
      · simp at h
  · rw [convert_index_core] at h
    split at h
    · exact ⟨c, a, b, (Option.some.inj h).symm⟩
    · split at h
      · exact ⟨a, b, c, (Option.some.inj h).symm⟩
      · simp at h
  · simp [convert_index_core] at h

/-- C8: after uppercasing and trimming, a 3-character digit-digit-letter
index is rotated to letter-digit-digit, letter-digit-digit passes
through, the two 2-character shapes both become letter-0-digit, every
other shape yields None, and pad_index is idempotent on every normalized
output. -/
theorem C8_index_normalizer :
    (∀ (s : Str) (a b c : Char), (pyStrip s).map Char.toUpper = [a, b, c] →
      isDigitC a = true → isDigitC b = true → isAlphaC c = true →
      convert_index s = some [c, a, b]) ∧
    (∀ (s : Str) (a b c : Char), (pyStrip s).map Char.toUpper = [a, b, c] →
      isAlphaC a = true → isDigitC b = true → isDigitC c = true →
      convert_index s = some [a, b, c]) ∧
    (∀ (s : Str) (a b : Char), (pyStrip s).map Char.toUpper = [a, b] →
      isDigitC a = true → isAlphaC b = true →
      convert_index s = some [b, '0', a]) ∧
    (∀ (s : Str) (a b : Char), (pyStrip s).map Char.toUpper = [a, b] →
      isAlphaC a = true → isDigitC b = true →
      convert_index s = some [a, '0', b]) ∧
    (∀ s : Str, validIndexShape ((pyStrip s).map Char.toUpper) = false →
      convert_index s = none) ∧
    (∀ (s : Str) (y : Str), convert_index s = some y →
      pad_index y = pad_index (pad_index y)) := by
  refine ⟨?_, ?_, ?_, ?_, ?_, ?_⟩
  · intro s a b c ht h1 h2 h3
    rw [convert_index, ht]
    simp [convert_index_core, h1, h2, h3]
  · intro s a b c ht h1 h2 h3
    rw [convert_index, ht]
    simp [convert_index_core, h1, h2, h3, isDigitC_of_isAlphaC a h1]
  · intro s a b ht h1 h2
    rw [convert_index, ht]
    simp [convert_index_core, h1, h2]
  · intro s a b ht h1 h2
    rw [convert_index, ht]
    simp [convert_index_core, h1, h2, isDigitC_of_isAlphaC a h1]
  · intro s h
    rw [convert_index]
    rcases ht : (pyStrip s).map Char.toUpper
      with _ | ⟨a, _ | ⟨b, _ | ⟨c, _ | ⟨d, rest⟩⟩⟩⟩ <;> rw [ht] at h
    · rfl
    · rfl
    · simp only [validIndexShape, Bool.or_eq_false_iff] at h
      simp [convert_index_core, h.1, h.2]
    · simp only [validIndexShape, Bool.or_eq_false_iff] at h
      simp [convert_index_core, h.1, h.2]
    · rfl
  · intro s y h
    obtain ⟨a, b, c, hy⟩ := convert_index_core_shape _ y h
    subst hy
    rfl

/-- Witness for C8: the padded, lowercase input " 04b" normalizes to
B04, which pad_index leaves unchanged. -/
theorem C8_index_normalizer_app :
    convert_index [' ', '0', '4', 'b'] = some ['B', '0', '4'] ∧
    pad_index ['B', '0', '4'] = pad_index (pad_index ['B', '0', '4']) :=
  ⟨C8_index_normalizer.1 [' ', '0', '4', 'b'] '0' '4' 'B' (by decide)
    (by decide) (by decide) (by decide),
   C8_index_normalizer.2.2.2.2.2 [' ', '0', '4', 'b'] ['B', '0', '4']
    (C8_index_normalizer.1 [' ', '0', '4', 'b'] '0' '4' 'B' (by decide)
      (by decide) (by decide) (by decide))⟩

/-! ## C9: date normalization (convert_date) -/

/-- A parsed calendar date. -/
structure PDate where
  year : Nat
  month : Nat
  day : Nat
deriving DecidableEq

/-- The Gregorian leap-year rule datetime validates against. -/
def isLeap (y : Nat) : Bool :=
  y % 4 = 0 && (y % 100 ≠ 0 || y % 400 = 0)

/-- Days in a month of a given year. -/
def daysInMonth (y m : Nat) : Nat :=
  if m = 2 then (if isLeap y then 29 else 28)
  else if m = 4 ∨ m = 6 ∨ m = 9 ∨ m = 11 then 30 else 31

/-- The century rule of strptime's %y: 00-68 map to 2000-2068, 69-99 to
1969-1999. -/
def centuryOf (yy : Nat) : Nat := if yy ≤ 68 then 2000 + yy else 1900 + yy

/-- datetime.strptime(clean, '%y%m%d') succeeding on the cleaned input
(src/main.py line 225). -/
def validYYMMDD : Str → Bool
  | [y1, y2, m1, m2, d1, d2] =>
    isDigitC y1 && isDigitC y2 && isDigitC m1 && isDigitC m2 &&
      isDigitC d1 && isDigitC d2 &&
      (decide (1 ≤ dval m1 * 10 + dval m2) &&
       decide (dval m1 * 10 + dval m2 ≤ 12) &&
       decide (1 ≤ dval d1 * 10 + dval d2) &&
       decide (dval d1 * 10 + dval d2 ≤
         daysInMonth (centuryOf (dval y1 * 10 + dval y2))
           (dval m1 * 10 + dval m2)))
  | _ => false

/-- Modelled from the spec: the free-form fallback parser of convert_date
is the external dateutil.parser.parse library, which is not part of this
repository; following the specification's date-canonicalization property
it is modelled on the ISO YYYY-MM-DD inputs that property exercises, and
any other shape is treated as the parse-failure branch. -/
def freeParseISO (s : Str) : Option PDate :=
  match s with
  | [y1, y2, y3, y4, h1, m1, m2, h2, d1, d2] =>
    if h1 = '-' ∧ h2 = '-' ∧ isDigitC y1 ∧ isDigitC y2 ∧ isDigitC y3 ∧
        isDigitC y4 ∧ isDigitC m1 ∧ isDigitC m2 ∧ isDigitC d1 ∧ isDigitC d2 ∧
        1 ≤ dval m1 * 10 + dval m2 ∧ dval m1 * 10 + dval m2 ≤ 12 ∧
        1 ≤ dval d1 * 10 + dval d2 ∧
        dval d1 * 10 + dval d2 ≤
          daysInMonth (((dval y1 * 10 + dval y2) * 10 + dval y3) * 10 + dval y4)
            (dval m1 * 10 + dval m2)
    then some ⟨((dval y1 * 10 + dval y2) * 10 + dval y3) * 10 + dval y4,
      dval m1 * 10 + dval m2, dval d1 * 10 + dval d2⟩
    else none
  | _ => none

/-- strftime('%y%m%d') applied to a parsed date. -/
def fmtYYMMDD (p : PDate) : Str :=
  zfill 2 (natToStr (p.year % 100)) ++ zfill 2 (natToStr p.month) ++
    zfill 2 (natToStr p.day)

/-- convert_date (src/main.py 221-233): return the digit-stripped input
verbatim when it is exactly 6 digits forming a valid %y%m%d date;
otherwise free-form-parse the original input and reformat to %y%m%d;
None when both fail. -/
def convert_date (s : Str) : Option Str :=
  let clean := s.filter isDigitC
  if clean.length = 6 ∧ validYYMMDD clean = true then some clean
  else (freeParseISO s).map fmtYYMMDD

/-- C9: when the non-digit-stripped input is exactly 6 digits forming a
valid %y%m%d date, convert_date returns those digits verbatim; otherwise
it defers to the free-form parser and reformats; and the inputs
2025-10-01 and 251001 both normalize to 251001. -/
theorem C9_date_normalization :
    (∀ s : Str, (s.filter isDigitC).length = 6 →
      validYYMMDD (s.filter isDigitC) = true →
      convert_date s = some (s.filter isDigitC)) ∧
    (∀ s : Str, ¬((s.filter isDigitC).length = 6 ∧
      validYYMMDD (s.filter isDigitC) = true) →
      convert_date s = (freeParseISO s).map fmtYYMMDD) ∧
    convert_date ['2', '0', '2', '5', '-', '1', '0', '-', '0', '1'] =
      some ['2', '5', '1', '0', '0', '1'] ∧
    convert_date ['2', '5', '1', '0', '0', '1'] =
      some ['2', '5', '1', '0', '0', '1'] := by
  refine ⟨?_, ?_, by decide, by decide⟩
  · intro s h1 h2
    simp only [convert_date]
    rw [if_pos ⟨h1, h2⟩]
  · intro s h
    simp only [convert_date]
    rw [if_neg h]

/-- Witness for C9 on the dashed input 25-10-01: stripping non-digits
leaves the valid 6-digit date 251001, returned verbatim. -/
theorem C9_date_normalization_app :
    convert_date ['2', '5', '-', '1', '0', '-', '0', '1'] =
      some (['2', '5', '-', '1', '0', '-', '0', '1'].filter isDigitC) :=
  C9_date_normalization.1 ['2', '5', '-', '1', '0', '-', '0', '1']
    (by decide) (by decide)

/-! ## C7: slab and hemisphere resolution -/

/-- The RIGHT hemisphere token after split()[0].upper(). -/
def hemiRIGHT : Str := ['R', 'I', 'G', 'H', 'T']

/-- The BOTH hemisphere token after split()[0].upper(). -/
def hemiBOTH : Str := ['B', 'O', 'T', 'H']

/-- The LEFT hemisphere token after split()[0].upper(). -/
def hemiLEFT : Str := ['L', 'E', 'F', 'T']

/-- Single-slab resolution (src/main.py 375-384): RIGHT adds 40, BOTH
adds 90, any other hemisphere (LEFT) leaves the raw slab; the result is
zero-filled to width 2.  int() raising on a non-numeric slab is modelled
by `none`. -/
def resolveSlabSingle (rawSlab hemisphere : Str) : Option Str :=
  if hemisphere = hemiRIGHT then
    (pyInt rawSlab).map (fun n => zfill 2 (natToStr (n + 40)))
  else if hemisphere = hemiBOTH then
    (pyInt rawSlab).map (fun n => zfill 2 (natToStr (n + 90)))
  else some (zfill 2 rawSlab)

/-- The slab list of the multi-slab branch (src/main.py 369): split on
commas, strip each entry, drop empty entries, zero-fill each to width
2. -/
def slabListOf (raw : Str) : List Str :=
  (((raw.splitOn ',').map pyStrip).filter (fun e => !e.isEmpty)).map (zfill 2)

/-- combined_slab_label (src/main.py 372): the padded entries joined with
underscores. -/
def combinedSlabLabel (raw : Str) : Str :=
  List.intercalate ['_'] (slabListOf raw)

/-- One entry of the identifier slab part: int() round-tripping removes
the zero padding; entries that fail int() are kept as-is (src/main.py
492-496). -/
def unpadEntry (e : Str) : Str :=
  match pyInt e with
  | some n => natToStr n
  | none => e

/-- The identifier slab part for a multi-slab project with more than one
slab (src/main.py 490-497): Slabs_ then the unpadded entries of the
combined label. -/
def slabPartMulti (label : Str) : Str :=
  ['S', 'l', 'a', 'b', 's', '_'] ++
    List.intercalate ['_'] ((label.splitOn '_').map unpadEntry)

lemma isWhiteC_of_digit (c : Char) (h : isDigitC c = true) :
    isWhiteC c = false := by
  rw [Bool.eq_false_iff]
  intro hcon
  simp only [isWhiteC, Bool.or_eq_true, decide_eq_true_eq] at hcon
  simp only [isDigitC, Bool.and_eq_true, decide_eq_true_eq] at h
  rcases hcon with ((h1 | h1) | h1) | h1 <;> subst h1 <;>
    exact absurd h (by decide)

lemma dropWhile_false (p : Char → Bool) (l : Str)
    (h : ∀ c ∈ l, p c = false) : l.dropWhile p = l := by
  cases l with
  | nil => rfl
  | cons c t => simp [List.dropWhile_cons, h c (List.mem_cons_self _ _)]

lemma pyStrip_digits (s : Str) (h : ∀ c ∈ s, isDigitC c = true) :
    pyStrip s = s := by
  rw [pyStrip, dropWhile_false isWhiteC s
    (fun c hc => isWhiteC_of_digit c (h c hc))]
  rw [dropWhile_false isWhiteC s.reverse
    (fun c hc => isWhiteC_of_digit c (h c (List.mem_reverse.mp hc)))]
  exact List.reverse_reverse s

lemma not_mem_of_digits (s : Str) (sep : Char)
    (hs : ∀ c ∈ s, isDigitC c = true) (hsep : isDigitC sep = false) :
    sep ∉ s := by
  intro hcon
  rw [hs sep hcon] at hsep
  cases hsep

/-- C7: single-slab resolution keeps LEFT unchanged, adds 40 for RIGHT
and 90 for BOTH, always zero-filled to width 2 (slab 5 gives 45 and 95);
multi-slab input pads each comma-separated entry to width 2 and joins
with underscores, with no hemisphere offset, while the identifier slab
part uses the unpadded numbers. -/
theorem C7_slab_hemisphere :
    (∀ n : Nat, resolveSlabSingle (natToStr n) hemiLEFT =
      some (zfill 2 (natToStr n))) ∧
    (∀ n : Nat, resolveSlabSingle (natToStr n) hemiRIGHT =
      some (zfill 2 (natToStr (n + 40)))) ∧
    (∀ n : Nat, resolveSlabSingle (natToStr n) hemiBOTH =
      some (zfill 2 (natToStr (n + 90)))) ∧
    resolveSlabSingle ['5'] hemiRIGHT = some ['4', '5'] ∧
    resolveSlabSingle ['5'] hemiBOTH = some ['9', '5'] ∧
    (∀ ns : List Nat, ns ≠ [] →
      combinedSlabLabel (List.intercalate [','] (ns.map natToStr)) =
        List.intercalate ['_'] (ns.map (fun n => zfill 2 (natToStr n)))) ∧
    (∀ ns : List Nat, ns ≠ [] →
      slabPartMulti
        (List.intercalate ['_'] (ns.map (fun n => zfill 2 (natToStr n)))) =
        ['S', 'l', 'a', 'b', 's', '_'] ++
          List.intercalate ['_'] (ns.map natToStr)) ∧
    combinedSlabLabel ['9', ',', '1', '0', ',', '1', '1'] =
      ['0', '9', '_', '1', '0', '_', '1', '1'] ∧
    slabPartMulti ['0', '9', '_', '1', '0', '_', '1', '1'] =
      ['S', 'l', 'a', 'b', 's', '_', '9', '_', '1', '0', '_', '1', '1'] := by
  refine ⟨?_, ?_, ?_, by decide, by decide, ?_, ?_, by decide, by decide⟩
  · intro n
    simp [resolveSlabSingle, hemiLEFT, hemiRIGHT, hemiBOTH]
  · intro n
    simp [resolveSlabSingle, hemiRIGHT, hemiBOTH, pyInt_natToStr]
  · intro n
    simp [resolveSlabSingle, hemiRIGHT, hemiBOTH, pyInt_natToStr]
  · intro ns hns
    have hsplit : (List.intercalate [','] (ns.map natToStr)).splitOn ',' =
        ns.map natToStr := by
      apply List.splitOn_intercalate
      · intro l hl
        obtain ⟨n, _, rfl⟩ := List.mem_map.mp hl
        exact not_mem_of_digits _ ',' (natToStr_digits n) (by decide)
      · simpa using hns
    rw [combinedSlabLabel, slabListOf, hsplit]
    have hstrip : (ns.map natToStr).map pyStrip = ns.map natToStr := by
      rw [List.map_map]
      exact List.map_congr_left
        (fun n _ => pyStrip_digits (natToStr n) (natToStr_digits n))
    rw [hstrip]
    have hfilter : (ns.map natToStr).filter (fun e => !e.isEmpty) =
        ns.map natToStr := by
      apply List.filter_eq_self.mpr
      intro a ha
      obtain ⟨n, _, rfl⟩ := List.mem_map.mp ha
      simpa using natToStr_ne_nil n
    rw [hfilter, List.map_map]
    rfl
  · intro ns hns
    have hsplit : (List.intercalate ['_']
        (ns.map (fun n => zfill 2 (natToStr n)))).splitOn '_' =
        ns.map (fun n => zfill 2 (natToStr n)) := by
      apply List.splitOn_intercalate
      · intro l hl
        obtain ⟨n, _, rfl⟩ := List.mem_map.mp hl
        exact not_mem_of_digits _ '_'
          (zfill_digits 2 _ (natToStr_digits n)) (by decide)
      · simpa using hns
    rw [slabPartMulti, hsplit, List.map_map]
    have hunpad : (ns.map (unpadEntry ∘ fun n => zfill 2 (natToStr n))) =
        ns.map natToStr :=
      List.map_congr_left
        (fun n _ => by simp [Function.comp, unpadEntry, pyInt_zfill_natToStr])
    rw [hunpad]

/-- Witness for C7's multi-slab clauses at the slab list 9, 10, 11. -/
theorem C7_slab_hemisphere_app :
    combinedSlabLabel (List.intercalate [',']
      (([9, 10, 11] : List Nat).map natToStr)) =
      List.intercalate ['_']
        (([9, 10, 11] : List Nat).map (fun n => zfill 2 (natToStr n))) ∧
    slabPartMulti (List.intercalate ['_']
      (([9, 10, 11] : List Nat).map (fun n => zfill 2 (natToStr n)))) =
      ['S', 'l', 'a', 'b', 's', '_'] ++
        List.intercalate ['_'] (([9, 10, 11] : List Nat).map natToStr) :=
  ⟨C7_slab_hemisphere.2.2.2.2.2.1 [9, 10, 11] (by decide),
   C7_slab_hemisphere.2.2.2.2.2.2.1 [9, 10, 11] (by decide)⟩

/-! ## C6/C10: the submission pipeline with its failure points -/

/-- The name_to_code table of DataLogger (src/main.py 32-72); a lookup
miss models the KeyError raised for an unknown subject. -/
def nameToCode : List (Str × Str) :=
  [
   (['P', 'e', 't', 'r', 'a'],
    ['C', 'J', '2', '3', '.', '5', '6', '.', '0', '0', '1']),
   (['C', 'r', 'o', 'i', 's', 's', 'a', 'n', 't'],
    ['C', 'J', '2', '3', '.', '5', '6', '.', '0', '0', '2']),
   (['N', 'u', 't', 'm', 'e', 'g'],
    ['C', 'J', '2', '3', '.', '5', '6', '.', '0', '0', '3']),
   (['T', 'a', 'n', 'k'],
    ['C', 'J', '2', '3', '.', '5', '6', '.', '0', '0', '4']),
   (['J', 'e', 'l', 'l', 'y', 'B', 'e', 'a', 'n'],
    ['C', 'J', '2', '4', '.', '5', '6', '.', '0', '0', '1']),
   (['P', 'r', 'i', 'n', 'g', 'l', 'e'],
    ['C', 'J', '2', '4', '.', '5', '6', '.', '0', '0', '2']),
   (['P', 'a', 'a', 'r', 'l'],
    ['C', 'J', '2', '4', '.', '5', '6', '.', '0', '0', '3']),
   (['R', 'a', 'm', 'b', 'o'],
    ['C', 'J', '2', '4', '.', '5', '6', '.', '0', '0', '4']),
   (['C', 'l', 'a', 'c', 'k'],
    ['C', 'J', '2', '4', '.', '5', '6', '.', '0', '0', '5']),
   (['P', 'o', 'r', 't', 'h', 'o', 's'],
    ['C', 'J', '2', '4', '.', '5', '6', '.', '0', '0', '6']),
   (['D', 'e', 'e', 'g', 'a', 'n'],
    ['C', 'J', '2', '4', '.', '5', '6', '.', '0', '0', '7']),
   (['D', 'a', 'n', 'g', 'e', 'r', 'b', 'o', 'y'],
    ['C', 'J', '2', '4', '.', '5', '6', '.', '0', '0', '8']),
   (['H', 'i', 'l', 'd', 'e', 'g', 'a', 'r', 'd'],
    ['C', 'J', '2', '4', '.', '5', '6', '.', '0', '0', '9']),
   (['V', 'i', 'l', 'l', 'o', 'p', 'o', 't', 'o'],
    ['C', 'J', '2', '4', '.', '5', '6', '.', '0', '1', '0']),
   (['P', 'a', 't', 'h', 'y'],
    ['C', 'J', '2', '4', '.', '5', '6', '.', '0', '1', '1']),
   (['T', 'o', 'k', 'i'],
    ['C', 'J', '2', '4', '.', '5', '6', '.', '0', '1', '2']),
   (['G', 'e', 'o', 'r', 'g', 'i', 'a'],
    ['C', 'J', '2', '4', '.', '5', '6', '.', '0', '1', '3']),
   (['C', 'a', 'r', 'm', 'i', 'c', 'h', 'a', 'e', 'l'],
    ['C', 'J', '2', '4', '.', '5', '6', '.', '0', '1', '4']),
   (['M', 'o', 'r', 'e', 'l'],
    ['C', 'J', '2', '4', '.', '5', '6', '.', '0', '1', '5']),
   (['O', 'r', 'i', 'o', 'n'],
    ['C', 'J', '2', '4', '.', '5', '6', '.', '0', '1', '6']),
   (['E', 'l', 'l', 'i', 'e', 'M', 'a', 'e'],
    ['C', 'J', '2', '4', '.', '5', '6', '.', '0', '1', '7']),
   (['L', 'a', 'm', 'b', 'e', 'r', 't'],
    ['C', 'J', '2', '4', '.', '5', '6', '.', '0', '1', '8']),
   (['O', 'c', 'e', 'a', 'n'],
    ['C', 'J', '2', '5', '.', '5', '6', '.', '0', '0', '1']),
   (['S', 't', 'e', 'l', 'l', 'a'],
    ['C', 'J', '2', '5', '.', '5', '6', '.', '0', '0', '2']),
   (['W', 'y', 'a', 't', 't'],
    ['C', 'J', '2', '5', '.', '5', '6', '.', '0', '0', '3']),
   (['P', 'i', 'g', 'l', 'e', 't'],
    ['C', 'J', '2', '5', '.', '5', '6', '.', '0', '0', '4']),
   (['M', 'o', 'i', 'r', 'a'],
    ['C', 'J', '2', '5', '.', '5', '6', '.', '0', '0', '5']),
   (['W', 'i', 'l', 'l', 'o', 'w'],
    ['C', 'J', '2', '5', '.', '5', '6', '.', '0', '0', '6']),
   (['W', 'r', 'e', 'n'],
    ['C', 'J', '2', '5', '.', '5', '6', '.', '0', '0', '7']),
   (['V', 'a', 'l', 'e', 'n', 't', 'i', 'n', 'o'],
    ['C', 'J', '2', '5', '.', '5', '6', '.', '0', '0', '8']),
   (['M', 'i', 's', 't', 'y'],
    ['C', 'J', '2', '5', '.', '5', '6', '.', '0', '0', '9']),
   (['L', 'i', 'n', 'k'],
    ['C', 'J', '2', '5', '.', '5', '6', '.', '0', '1', '0']),
   (['O', 'w', 'l', 'e', 't', 't', 'e'],
    ['C', 'J', '2', '5', '.', '5', '6', '.', '0', '1', '1']),
   (['C', 'h', 'i', 'c', 'k', 'p', 'e', 'a'],
    ['C', 'J', '2', '5', '.', '5', '6', '.', '0', '1', '2']),
   (['B', 'e', 'n', 'e', 'd', 'i', 'c', 't'],
    ['C', 'J', '2', '5', '.', '5', '6', '.', '0', '1', '3']),
   (['V', 'e', 'r', 'a'],
    ['C', 'J', '2', '5', '.', '5', '6', '.', '0', '1', '4']),
   (['T', 'a', 'n', 'g', 'o'],
    ['C', 'J', '2', '5', '.', '5', '6', '.', '0', '1', '5']),
   (['P', 'a', 'r', 'i', 's'],
    ['C', 'J', '2', '5', '.', '5', '6', '.', '0', '1', '6']),
   (['L', 'a', 'p', 'r', 'a', 's'],
    ['C', 'J', '2', '5', '.', '5', '6', '.', '0', '1', '7'])
  ]

/-- The errors the modelled pipeline can raise. -/
inductive SubmitErr
  | missingField
  | unknownSubject
  | indexOutOfRange
deriving DecidableEq

/-- One submission payload, restricted to the fields the modelled
pipeline reads; `none` models an absent JSON field, and rxn_number
carries the int()-converted reaction count. -/
structure Form where
  user_first_name : Option Str := none
  date : Option Str := none
  marmoset : Option Str := none
  slab : Option Str := none
  tile : Option Str := none
  hemisphere : Option Str := none
  tile_location : Option Str := none
  sort_method : Option Str := none
  rxn_number : Option Nat := none
  sorter_initials : Option Str := none
  project : Str := []
  rna_indices : List Str := []
  atac_indices : List Str := []
deriving DecidableEq

/-- Python falsiness of an optional string field: absent or empty. -/
def falsyStr : Option Str → Bool
  | none => true
  | some s => s.isEmpty

/-- Python falsiness of the optional reaction count: absent or zero. -/
def falsyNat : Option Nat → Bool
  | none => true
  | some n => n = 0

/-- The required-field check of submit_data (src/main.py 702-706): true
when some required field is missing or falsy, which aborts the request
before process_form_data runs. -/
def validateRequired (fd : Form) : Bool :=
  falsyStr fd.user_first_name || falsyStr fd.date || falsyStr fd.marmoset ||
    falsyStr fd.slab || falsyStr fd.tile || falsyStr fd.hemisphere ||
    falsyStr fd.tile_location || falsyStr fd.sort_method ||
    falsyNat fd.rxn_number || falsyStr fd.sorter_initials

/-- The HMBA_Aim4 test of process_form_data line 442. -/
def isAim4 (project : Str) : Bool :=
  project = ['H', 'M', 'B', 'A', '_', 'A', 'i', 'm', '4']

/-- One write_modality_data call, as far as its fallible per-reaction
array accesses go: the RNA row reads rna_indices[x] and the ATAC row
atac_indices[x] (src/main.py 541, 556); an out-of-range access raises
IndexError before the row's cells are written (the other per-reaction
arrays fail the same way). -/
def writeModalityRow (fd : Form) (sheet : List Row) (pre ampD : Str)
    (d : Option Str) (x : Nat) (p : Nat × Nat) (mo : Modality) :
    Except SubmitErr Row :=
  match mo with
  | Modality.RNA =>
    match fd.rna_indices.get? x with
    | none => Except.error SubmitErr.indexOutOfRange
    | some _ => Except.ok (rnaRow sheet pre ampD d x p)
  | Modality.ATAC =>
    match fd.atac_indices.get? x with
    | none => Except.error SubmitErr.indexOutOfRange
    | some _ => Except.ok (atacRow d x p)

/-- The row loop of process_form_data lines 450-468 with its failure
points: derivation is interleaved with in-memory appends, so on failure
the partial in-memory sheet (earlier rows already appended) is returned
together with the error. -/
def composeRows (fd : Form) (pre ampD : Str) (d : Option Str) :
    List Row → List (Nat × (Nat × Nat)) → List Row × Option SubmitErr
  | sheet, [] => (sheet, none)
  | sheet, (x, p) :: rest =>
    match writeModalityRow fd sheet pre ampD d x p Modality.RNA with
    | Except.error e => (sheet, some e)
    | Except.ok r1 =>
      if isAim4 fd.project then
        composeRows fd pre ampD d (sheet ++ [r1]) rest
      else
        match writeModalityRow fd (sheet ++ [r1]) pre ampD d x p
            Modality.ATAC with
        | Except.error e => (sheet ++ [r1], some e)
        | Except.ok r2 => composeRows fd pre ampD d ((sheet ++ [r1]) ++ [r2]) rest

/-- The pipeline of submit_data and process_form_data, to the extent C6
needs it: required-field validation and the subject-code lookup happen
before any row is composed; the rows are composed in memory; and the
persisted log (local mode) is uploaded exactly once, at the end, only
when no exception was raised (src/main.py 336-482, 698-710).  The second
component counts uploads. -/
def processSubmission (persisted : List Row) (fd : Form) (pre ampD : Str)
    (d : Option Str) : List Row × Nat :=
  if validateRequired fd then (persisted, 0)
  else
    match fd.marmoset with
    | none => (persisted, 0)
    | some name =>
      match nameToCode.lookup name with
      | none => (persisted, 0)
      | some _ =>
        match composeRows fd pre ampD d persisted
            (submissionAlloc persisted d ((fd.rxn_number).getD 0)).enum with
        | (_, some _) => (persisted, 0)
        | (s, none) => (s, 1)

lemma composeRows_extends (fd : Form) (pre ampD : Str) (d : Option Str) :
    ∀ (l : List (Nat × (Nat × Nat))) (sheet : List Row),
      ∃ new, (composeRows fd pre ampD d sheet l).1 = sheet ++ new := by
  intro l
  induction l with
  | nil => intro sheet; exact ⟨[], by simp [composeRows]⟩
  | cons q rest ih =>
    intro sheet
    obtain ⟨x, p⟩ := q
    rw [composeRows]
    cases writeModalityRow fd sheet pre ampD d x p Modality.RNA with
    | error e => exact ⟨[], by simp⟩
    | ok r1 =>
      by_cases ha : isAim4 fd.project = true
      · simp only [ha, if_true]
        obtain ⟨new, hnew⟩ := ih (sheet ++ [r1])
        exact ⟨[r1] ++ new, by rw [hnew]; simp⟩
      · simp only [Bool.not_eq_true] at ha
        simp only [ha, Bool.false_eq_true, if_false]
        cases writeModalityRow fd (sheet ++ [r1]) pre ampD d x p
            Modality.ATAC with
        | error e => exact ⟨[r1], by simp⟩
        | ok r2 =>
          obtain ⟨new, hnew⟩ := ih ((sheet ++ [r1]) ++ [r2])
          exact ⟨[r1] ++ ([r2] ++ new), by rw [hnew]; simp⟩

/-- The subject name used by the concrete submissions below. -/
def petra : Str := ['P', 'e', 't', 'r', 'a']

/-- A submission of two reactions whose rna_indices array has only one
entry: its second reaction's RNA index lookup raises. -/
def fdShort : Form :=
  { user_first_name := some ['a'], date := some date0,
    marmoset := some petra, slab := some ['5'], tile := some ['1'],
    hemisphere := some hemiLEFT, tile_location := some ['A'],
    sort_method := some ['d'], rxn_number := some 2,
    sorter_initials := some ['H', 'K'], project := [],
    rna_indices := [['A', '0', '1']],
    atac_indices := [['B', '0', '1'], ['B', '0', '2']] }

/-- C6 counterexample: on this two-reaction submission the derivation
failure (the missing second RNA index) is raised only after the first
reaction's two rows were already appended to the in-memory log, so
derivation does not all happen before the first append; the persisted
log is nevertheless left unchanged with no upload. -/
theorem C6_partial_append_cx :
    (composeRows fdShort ampPre0 date0 (some date0) []
      (submissionAlloc [] (some date0) 2).enum).2 =
      some SubmitErr.indexOutOfRange ∧
    (composeRows fdShort ampPre0 date0 (some date0) []
      (submissionAlloc [] (some date0) 2).enum).1.length = 2 ∧
    processSubmission [] fdShort ampPre0 date0 (some date0) = ([], 0) :=
  ⟨by decide, by decide, by decide⟩

/-- C6 (amended): derivation is interleaved with in-memory appends, but
the persisted log is written at most once, only after all rows are
composed; any validation or derivation failure leaves the persisted log
unchanged with no upload. -/
theorem C6_persisted_log_atomic :
    (∀ (persisted : List Row) (fd : Form) (pre ampD : Str) (d : Option Str),
      validateRequired fd = true →
      processSubmission persisted fd pre ampD d = (persisted, 0)) ∧
    (∀ (persisted : List Row) (fd : Form) (pre ampD : Str) (d : Option Str),
      (composeRows fd pre ampD d persisted
        (submissionAlloc persisted d ((fd.rxn_number).getD 0)).enum).2.isSome =
        true →
      processSubmission persisted fd pre ampD d = (persisted, 0)) ∧
    (∀ (persisted : List Row) (fd : Form) (pre ampD : Str) (d : Option Str),
      (processSubmission persisted fd pre ampD d).2 ≤ 1 ∧
      ((processSubmission persisted fd pre ampD d).2 = 1 →
        (composeRows fd pre ampD d persisted
          (submissionAlloc persisted d ((fd.rxn_number).getD 0)).enum).2 =
          none ∧
        ∃ new, (processSubmission persisted fd pre ampD d).1 =
          persisted ++ new)) := by
  refine ⟨?_, ?_, ?_⟩
  · intro persisted fd pre ampD d hv
    simp [processSubmission, hv]
  · intro persisted fd pre ampD d hc
    by_cases hv : validateRequired fd = true
    · simp [processSubmission, hv]
    · simp only [Bool.not_eq_true] at hv
      cases hm : fd.marmoset with
      | none => simp [processSubmission, hv, hm]
      | some name =>
        cases hlk : nameToCode.lookup name with
        | none => simp [processSubmission, hv, hm, hlk]
        | some code =>
          rcases hcomp : composeRows fd pre ampD d persisted
            (submissionAlloc persisted d ((fd.rxn_number).getD 0)).enum
            with ⟨s, e⟩
          cases e with
          | none => rw [hcomp] at hc; simp at hc
          | some err => simp [processSubmission, hv, hm, hlk, hcomp]
  · intro persisted fd pre ampD d
    by_cases hv : validateRequired fd = true
    · simp [processSubmission, hv]
    · simp only [Bool.not_eq_true] at hv
      cases hm : fd.marmoset with
      | none => simp [processSubmission, hv, hm]
      | some name =>
        cases hlk : nameToCode.lookup name with
        | none => simp [processSubmission, hv, hm, hlk]
        | some code =>
          rcases hcomp : composeRows fd pre ampD d persisted
            (submissionAlloc persisted d ((fd.rxn_number).getD 0)).enum
            with ⟨s, e⟩
          cases e with
          | none =>
            have hext := composeRows_extends fd pre ampD d
              (submissionAlloc persisted d ((fd.rxn_number).getD 0)).enum
              persisted
            rw [hcomp] at hext
            obtain ⟨new, hnew⟩ := hext
            refine ⟨by simp [processSubmission, hv, hm, hlk, hcomp], fun _ => ⟨rfl, new, ?_⟩⟩
            simp only [processSubmission, hv, Bool.false_eq_true, if_false,
              hm, hlk, hcomp]
            exact hnew
          | some err => simp [processSubmission, hv, hm, hlk, hcomp]

/-- Witness for C6's amended guarantee at the concrete failing
submission of the counterexample: the persisted log stays unchanged and
nothing is uploaded. -/
theorem C6_persisted_log_atomic_app :
    processSubmission [] fdShort ampPre0 date0 (some date0) = ([], 0) :=
  C6_persisted_log_atomic.2.1 [] fdShort ampPre0 date0 (some date0) (by decide)

/-- The success path of the row loop: with index arrays long enough, no
error is raised and, per reaction, exactly one RNA row is appended for an
HMBA_Aim4 submission, and exactly one RNA row followed by one ATAC row
for any other project. -/
lemma composeRows_ok (fd : Form) (pre ampD : Str) (d : Option Str) :
    ∀ (A : List (Nat × Nat)) (k : Nat) (sheet : List Row),
      k + A.length ≤ fd.rna_indices.length →
      (isAim4 fd.project = true ∨ k + A.length ≤ fd.atac_indices.length) →
      (composeRows fd pre ampD d sheet (A.enumFrom k)).2 = none ∧
      ∃ new, (composeRows fd pre ampD d sheet (A.enumFrom k)).1 =
          sheet ++ new ∧
        new.length = A.length * (if isAim4 fd.project then 1 else 2) ∧
        ∀ i, i < A.length →
          (if isAim4 fd.project then
            ∃ r, new.get? i = some r ∧ r.modality = some Modality.RNA ∧
              r.rxn = some (k + i)
          else
            (∃ r, new.get? (2 * i) = some r ∧
              r.modality = some Modality.RNA ∧ r.rxn = some (k + i)) ∧
            (∃ r, new.get? (2 * i + 1) = some r ∧
              r.modality = some Modality.ATAC ∧ r.rxn = some (k + i))) := by
  intro A
  induction A with
  | nil =>
    intro k sheet _ _
    exact ⟨rfl, [], by simp [composeRows, List.enumFrom], by simp,
      by intro i hi; simp at hi⟩
  | cons p rest ih =>
    intro k sheet hrna hatac
    have hk : k < fd.rna_indices.length := by
      simp only [List.length_cons] at hrna
      omega
    cases hg : fd.rna_indices.get? k with
    | none =>
      exfalso
      have := List.get?_eq_none.mp hg
      omega
    | some idx =>
      simp only [List.enumFrom, composeRows, writeModalityRow, hg]
      by_cases ha : isAim4 fd.project = true
      · simp only [ha, if_true]
        have hrna' : (k + 1) + rest.length ≤ fd.rna_indices.length := by
          simp only [List.length_cons] at hrna
          omega
        obtain ⟨hnone, new', hnew', hlen', hidx'⟩ :=
          ih (k + 1) (sheet ++ [rnaRow sheet pre ampD d k p]) hrna'
            (Or.inl ha)
        refine ⟨hnone, rnaRow sheet pre ampD d k p :: new', ?_, ?_, ?_⟩
        · rw [hnew']
          simp
        · simp only [List.length_cons, List.length_cons, ha, if_true] at hlen' ⊢
          omega
        · intro i hi
          simp only [ha, if_true] at hidx' ⊢
          cases i with
          | zero =>
            exact ⟨rnaRow sheet pre ampD d k p, rfl, rfl, by simp [rnaRow]⟩
          | succ j =>
            have hj : j < rest.length := by
              simp only [List.length_cons] at hi
              omega
            obtain ⟨r, h1, h2, h3⟩ := hidx' j hj
            refine ⟨r, ?_, h2, ?_⟩
            · simpa using h1
            · rw [h3]
              have : k + 1 + j = k + (j + 1) := by omega
              rw [this]
      · have hb : k < fd.atac_indices.length := by
          rcases hatac with h | h
          · exact absurd h ha
          · simp only [List.length_cons] at h
            omega
        cases hg2 : fd.atac_indices.get? k with
        | none =>
          exfalso
          have := List.get?_eq_none.mp hg2
          omega
        | some idx2 =>
          simp only [Bool.not_eq_true] at ha
          simp only [ha, Bool.false_eq_true, if_false, hg2]
          have hrna' : (k + 1) + rest.length ≤ fd.rna_indices.length := by
            simp only [List.length_cons] at hrna
            omega
          have hatac' : isAim4 fd.project = true ∨
              (k + 1) + rest.length ≤ fd.atac_indices.length := by
            rcases hatac with h | h
            · exact Or.inl h
            · simp only [List.length_cons] at h
              exact Or.inr (by omega)
          obtain ⟨hnone, new', hnew', hlen', hidx'⟩ :=
            ih (k + 1) ((sheet ++ [rnaRow sheet pre ampD d k p]) ++
              [atacRow d k p]) hrna' hatac'
          refine ⟨hnone, rnaRow sheet pre ampD d k p :: atacRow d k p ::
            new', ?_, ?_, ?_⟩
          · rw [hnew']
            simp
          · simp only [List.length_cons, ha, Bool.false_eq_true, if_false]
              at hlen' ⊢
            omega
          · intro i hi
            simp only [ha, Bool.false_eq_true, if_false] at hidx' ⊢
            cases i with
            | zero =>
              refine ⟨⟨rnaRow sheet pre ampD d k p, rfl, rfl, by simp [rnaRow]⟩,
                atacRow d k p, rfl, rfl, by simp [atacRow]⟩
            | succ j =>
              have hj : j < rest.length := by
                simp only [List.length_cons] at hi
                omega
              obtain ⟨⟨r1, h11, h12, h13⟩, r2, h21, h22, h23⟩ := hidx' j hj
              have hki : k + 1 + j = k + (j + 1) := by omega
              constructor
              · refine ⟨r1, ?_, h12, by rw [h13, hki]⟩
                have harith : 2 * (j + 1) = 2 * j + 1 + 1 := by omega
                rw [harith, List.get?_cons_succ, List.get?_cons_succ]
                exact h11
              · refine ⟨r2, ?_, h22, by rw [h23, hki]⟩
                have harith : 2 * (j + 1) + 1 = 2 * j + 1 + 1 + 1 := by omega
                rw [harith, List.get?_cons_succ, List.get?_cons_succ]
                exact h21

/-- C10: with sufficient index arrays, a submission of N reactions writes
exactly one RNA row per reaction and no ATAC row when the project is
HMBA_Aim4, and exactly two rows per reaction, one RNA then one ATAC in
that order, for every other project. -/
theorem C10_rows_per_modality (fd : Form) (pre ampD : Str) (d : Option Str)
    (sheet : List Row) (N : Nat)
    (hrna : N ≤ fd.rna_indices.length)
    (hatac : isAim4 fd.project = true ∨ N ≤ fd.atac_indices.length) :
    (composeRows fd pre ampD d sheet (submissionAlloc sheet d N).enum).2 =
      none ∧
    ∃ new, (composeRows fd pre ampD d sheet
        (submissionAlloc sheet d N).enum).1 = sheet ++ new ∧
      new.length = N * (if isAim4 fd.project then 1 else 2) ∧
      ∀ i, i < N →
        (if isAim4 fd.project then
          ∃ r, new.get? i = some r ∧ r.modality = some Modality.RNA ∧
            r.rxn = some i
        else
          (∃ r, new.get? (2 * i) = some r ∧
            r.modality = some Modality.RNA ∧ r.rxn = some i) ∧
          (∃ r, new.get? (2 * i + 1) = some r ∧
            r.modality = some Modality.ATAC ∧ r.rxn = some i)) := by
  have hA : (submissionAlloc sheet d N).length = N :=
    allocWells_length _ _ _ _
  have hrna' : 0 + (submissionAlloc sheet d N).length ≤
      fd.rna_indices.length := by
    rw [hA]; omega
  have hatac' : isAim4 fd.project = true ∨
      0 + (submissionAlloc sheet d N).length ≤ fd.atac_indices.length := by
    rcases hatac with h | h
    · exact Or.inl h
    · rw [hA]; exact Or.inr (by omega)
  have henum : (submissionAlloc sheet d N).enum =
      (submissionAlloc sheet d N).enumFrom 0 := rfl
  rw [henum]
  obtain ⟨hnone, new, hnew, hlen, hidx⟩ :=
    composeRows_ok fd pre ampD d (submissionAlloc sheet d N) 0 sheet
      hrna' hatac'
  rw [hA] at hlen
  refine ⟨hnone, new, hnew, hlen, ?_⟩
  intro i hi
  have hmain := hidx i (by omega)
  simpa using hmain

/-- A two-reaction submission with full index arrays, for the C10
witness. -/
def fdFull : Form :=
  { fdShort with rna_indices := [['A', '0', '1'], ['A', '0', '2']] }

/-- Witness for C10 at the two-reaction, two-modality submission
fdFull. -/
theorem C10_rows_per_modality_app :
    (composeRows fdFull ampPre0 date0 (some date0) []
      (submissionAlloc [] (some date0) 2).enum).2 = none ∧
    ∃ new, (composeRows fdFull ampPre0 date0 (some date0) []
        (submissionAlloc [] (some date0) 2).enum).1 = [] ++ new ∧
      new.length = 2 * (if isAim4 fdFull.project then 1 else 2) ∧
      ∀ i, i < 2 →
        (if isAim4 fdFull.project then
          ∃ r, new.get? i = some r ∧ r.modality = some Modality.RNA ∧
            r.rxn = some i
        else
          (∃ r, new.get? (2 * i) = some r ∧
            r.modality = some Modality.RNA ∧ r.rxn = some i) ∧
          (∃ r, new.get? (2 * i + 1) = some r ∧
            r.modality = some Modality.ATAC ∧ r.rxn = some i)) :=
  C10_rows_per_modality fdFull ampPre0 date0 (some date0) [] 2 (by decide)
    (Or.inr (by decide))

/-! ## C1: the counter-override endpoint versus the next allocation -/

/-- Characters _safe_user_key keeps (src/main.py 82). -/
def keepKeyChar (c : Char) : Bool :=
  isAlphaC c || isDigitC c || c = '_' || c = '-'

/-- re.sub collapsing each run of other characters to one underscore. -/
def sanitizeKey : Str → Bool → Str
  | [], _ => []
  | c :: cs, inRun =>
    if keepKeyChar c then c :: sanitizeKey cs false
    else if inRun then sanitizeKey cs true
    else '_' :: sanitizeKey cs true

/-- The fallback user key. -/
def unknownKey : Str := ['u', 'n', 'k', 'n', 'o', 'w', 'n']

/-- _safe_user_key (src/main.py 78-82). -/
def safeUserKey (name : Str) : Str :=
  if (pyStrip name).isEmpty then unknownKey
  else
    if (sanitizeKey (pyStrip name) false).isEmpty then unknownKey
    else sanitizeKey (pyStrip name) false

/-- The update_counter endpoint (src/main.py 661-696): reject a missing
user or a missing/negative counter, otherwise store the new counter as
user_states[user_key].next_counter in the meta store (newest binding
first).  `none` models the error responses. -/
def updateCounter (meta : List (Str × Int)) (user : Str)
    (newCounter : Option Int) : Option (List (Str × Int)) :=
  if (pyStrip user).isEmpty then none
  else
    match newCounter with
    | none => none
    | some k => if k < 0 then none else some ((safeUserKey user, k) :: meta)

/-- The chip state process_form_data derives for the next submission
(src/main.py 402-416).  The stored per-user meta and the user are in the
handler's reach, but the source never consults the stored next_counter
here: with no rows for the date the start is the baseline chip 90 with
zero wells used, and the discarded second _sheet_date_chip_usage call at
line 412 changes nothing. -/
def nextSubmissionStart (meta : List (Str × Int)) (user : Str)
    (rows : List Row) (d : Option Str) : Nat × Nat :=
  startChipUsed (datePairs rows d)

/-- The first (chip, well) assignment of the next submission. -/
def firstAssignment (meta : List (Str × Int)) (user : Str)
    (rows : List Row) (d : Option Str) (N : Nat) : Option (Nat × Nat) :=
  (allocWells (chipsMapOf (datePairs rows d)) N
    (nextSubmissionStart meta user rows d).1
    (nextSubmissionStart meta user rows d).2).head?

/-- The user of the C1 scenario. -/
def alice : Str := ['a', 'l', 'i', 'c', 'e']

/-- C1: the override endpoint stores next_counter = 100 for alice, yet
the next submission on a date with no rows allocates its first reaction
on the baseline chip 90 — for every stored meta and user — so the stored
override does not take precedence on the next allocation. -/
theorem C1_override_not_used :
    updateCounter [] alice (some 100) = some [(alice, 100)] ∧
    (∀ (meta : List (Str × Int)) (user : Str),
      firstAssignment meta user [] (some date0) 1 = some (90, 1)) ∧
    firstAssignment [(alice, 100)] alice [] (some date0) 1 = some (90, 1) ∧
    (90, 1) ≠ ((100 : Nat), (1 : Nat)) := by
  refine ⟨by decide, ?_, by decide, by decide⟩
  intro meta user
  rfl

/-! ## C2: the conflict-retry save loop -/

/-- The persisted object with its generation token. -/
structure Remote where
  content : List Row
  gen : Nat
deriving DecidableEq

/-- Conditional upload (src/main.py 134-151): succeeds only when the
caller's token matches the object's current generation; a mismatch is
the precondition failure. -/
def uploadIfMatch (r : Remote) (wb : List Row) (g : Nat) : Option Remote :=
  if g = r.gen then some { content := wb, gen := r.gen + 1 } else none

/-- The save loop of process_form_data (src/main.py 470-481): up to 3
attempts; on a precondition failure the workbook variable and generation
are replaced by a fresh download of the remote object and the loop
retries the upload; nothing is re-derived or re-appended before the
retry, and after 3 failures the loop simply ends without surfacing an
error.  Returns the final remote state and whether an upload
succeeded. -/
def saveLoop : Nat → List Row → Nat → Remote → Remote × Bool
  | 0, _, _, r => (r, false)
  | n + 1, wb, g, r =>
    match uploadIfMatch r wb g with
    | some r2 => (r2, true)
    | none => saveLoop n r.content r.gen r

/-- The submission row of the C2 scenario. -/
def subRow0 : Row :=
  { date := some date0, bcsn := some (mkBCSN 90 1), amp := none,
    modality := some Modality.RNA, rxn := some 0 }

/-- C2: a submission whose workbook holds its one composed row, saved
with a stale generation token (a concurrent writer bumped the remote to
generation 1): the first attempt hits the precondition failure, the
retry re-downloads and then successfully uploads the freshly downloaded
workbook — which does not contain the submission's row.  The retried
save persists a log lacking the submission's rows. -/
theorem C2_conflict_retry_drops_rows :
    (saveLoop 3 [subRow0] 0 { content := [], gen := 1 }).2 = true ∧
    (saveLoop 3 [subRow0] 0 { content := [], gen := 1 }).1 =
      { content := [], gen := 2 } ∧
    subRow0 ∉ (saveLoop 3 [subRow0] 0 { content := [], gen := 1 }).1.content ∧
    subRow0 ∈ [subRow0] :=
  ⟨by decide, by decide, by decide, by decide⟩
